import Mathlib

/-!
Verification of the Tiny-Language compiler core: a shallow embedding of the
hand-written lexical scanner (`src/Lexical Analysis/scanner.py`) and of the
recursive-descent parser (`src/Parser/parser.py`), together with theorems
settling the specified behavioural claims.

Modelling conventions:
* Python strings are modelled as `List Char`; per-character predicates
  (`str.isspace`, `str.isalpha`, `str.isdigit`, `str.lower`) are modelled by
  the corresponding `Char` operations.
* The scanner's index-based character loop (`get_token`, scanner.py lines
  59-144) is embedded as a structurally recursive scan over the remaining
  suffix of the line, with an explicit mode for "inside a `{ }` comment"
  and for a pending digit/letter run.  Skipping to the closing `}` with
  `str.find` is modelled by consuming the commented characters one at a
  time, which yields the same emitted tokens and the same final comment
  flag; maximal digit/letter runs are accumulated in the mode.
* The parser's mutable cursor/diagnostics (`self.current_idx`,
  `self.errors`) become an explicit state record threaded through the
  grammar functions.  The recursion is driven by a fuel argument; `none`
  means the fuel ran out.  A separate family of theorems shows a fuel of
  `20 * tokens.length + 20` always suffices, which is the formal content of
  "the parser terminates on every token list".
* `uuid.uuid4()` node identifiers (parser.py line 22) are modelled by
  recording, in each node, the index of the uuid draw that created it
  (a counter threaded through the state); serialization (`to_dict`)
  applies an ambient uuid stream `supply : Nat → String` to that index.
  Two parser invocations see two different streams, which is how the
  randomness of `uuid4` is reflected in a pure embedding.
* Python's in-place mutations `node.children.append(...)` and
  `current_stmt.sibling = next_stmt` are modelled by functional update;
  the sibling chain built by `stmt_sequence`'s loop is reconstructed by
  linking the collected statement nodes right-to-left, which produces the
  same tree as the left-to-right pointer mutations.
-/

namespace Tiny

/-- Python `str.isspace` / `str.strip` whitespace test on a character. -/
def isWs (c : Char) : Bool := c.isWhitespace

/-- The `TOKEN_MAP` of scanner.py (lines 7-28), as an association list. -/
def tokenMap : List (String × String) :=
  [(";", "SEMICOLON"), ("if", "IF"), ("then", "THEN"), ("else", "ELSE"),
   ("end", "END"), ("repeat", "REPEAT"), ("until", "UNTIL"), (":=", "ASSIGN"),
   ("read", "READ"), ("write", "WRITE"), ("<", "LESSTHAN"), ("=", "EQUAL"),
   ("+", "PLUS"), ("-", "MINUS"), ("*", "MULT"), ("/", "DIV"),
   ("(", "OPENBRACKET"), (")", "CLOSEDBRACKET"),
   ("IDENTIFIER", "IDENTIFIER"), ("NUMBER", "NUMBER")]

/-- Lookup in `TOKEN_MAP`; total, the scanner only uses keys that exist. -/
def tokenMapGet (k : String) : String :=
  ((tokenMap.find? (fun p => p.1 = k)).map Prod.snd).getD ""

/-- The `KEYWORDS` of scanner.py (line 31).  Exactly as in the source: the set is
`{"if", "then", "end", "repeat", "until", "read", "write"}` — it does NOT
contain `"else"`, even though `TOKEN_MAP` has an `ELSE` entry. -/
def keywords : List String := ["if", "then", "end", "repeat", "until", "read", "write"]

/-- The single-character members of `SPECIAL_SYMBOLS` (scanner.py line 32).
The set also contains the two-character string `":="`, but the membership
test `char in SPECIAL_SYMBOLS` is applied to a single character, which can
never equal `":="`; the `":="` case is handled by the dedicated
two-character lookahead beforehand. -/
def specialSymbols : List Char := [';', '+', '-', '*', '/', '(', ')', '<', '=']

/-- Classification of a completed letter run (scanner.py lines 119-123):
a keyword if the run is in `KEYWORDS`, otherwise an `IDENTIFIER`. -/
def classifyWord (w : String) : String :=
  if w ∈ keywords then tokenMapGet w else "IDENTIFIER"

/-- Scanner state while walking one line: normal scanning, inside a `{ }`
comment, in the middle of a digit/letter run (with the accumulated run), or
just after a `:` whose `:=` lookahead is still undecided.  The `colon` mode
embeds the two-character lookahead of scanner.py line 127 one character at a
time: the decision taken on the next character (or at end of line) is exactly
the decision the source takes by peeking at `line[i + 1]`. -/
inductive LexMode where
  | normal
  | comment
  | num (acc : List Char)
  | word (acc : List Char)
  | colon

/-- End of the line (the `while i < length` loop of scanner.py exits, or the
rest of the line is discarded inside a comment): flush a pending run and
report the comment flag (scanner.py lines 73, 92, 103-105, 116-123, 144).
A pending `:` at end of line is the source's `i + 1 < length` test failing:
`:` alone is not a symbol, so it is reported as a lexical error and skipped,
producing no token. -/
def lexFinish (mode : LexMode) (vals tys : List String) :
    List String × List String × Bool :=
  match mode with
  | .normal => (vals, tys, false)
  | .comment => (vals, tys, true)
  | .num acc => (vals ++ [String.mk acc], tys ++ [tokenMapGet "NUMBER"], false)
  | .word acc =>
    let w := String.mk acc
    (vals ++ [w], tys ++ [classifyWord w], false)
  | .colon => (vals, tys, false)

/-- Dispatch of one character seen in normal scanning position (scanner.py
lines 76-142, minus the digit/letter run continuation handled by the caller):
whitespace is skipped, `{` opens a comment, a digit starts a number run, a
letter starts a word run, `:` waits for the `:=` lookahead, a member of
`SPECIAL_SYMBOLS` becomes a one-character token, anything else is an
unrecognized character, reported to stdout and skipped.  Returns the next
mode together with the updated token lists. -/
def lexDispatch (c : Char) (vals tys : List String) :
    LexMode × List String × List String :=
  if isWs c then (.normal, vals, tys)
  else if c = '{' then (.comment, vals, tys)
  else if c.isDigit then (.num [c], vals, tys)
  else if c.isAlpha then (.word [c], vals, tys)
  else if c = ':' then (.colon, vals, tys)
  else if c ∈ specialSymbols then
    (.normal, vals ++ [String.singleton c], tys ++ [tokenMapGet (String.singleton c)])
  else (.normal, vals, tys)

/-- The character loop of `get_token` (scanner.py lines 59-144), one character
per step. -/
def lexStep : List Char → LexMode → List String → List String →
    List String × List String × Bool
  | [], mode, vals, tys => lexFinish mode vals tys
  | c :: rest, mode, vals, tys =>
    match mode with
    | .comment =>
      -- scanner.py lines 63-73: inside a comment, consume up to the closing `}`
      if c = '}' then lexStep rest .normal vals tys
      else lexStep rest .comment vals tys
    | .num acc =>
      -- scanner.py lines 96-106: extend the digit run, else emit NUMBER
      if c.isDigit then lexStep rest (.num (acc ++ [c])) vals tys
      else
        let r := lexDispatch c (vals ++ [String.mk acc]) (tys ++ [tokenMapGet "NUMBER"])
        lexStep rest r.1 r.2.1 r.2.2
    | .word acc =>
      -- scanner.py lines 109-124: extend the letter run, else classify it
      if c.isAlpha then lexStep rest (.word (acc ++ [c])) vals tys
      else
        let w := String.mk acc
        let r := lexDispatch c (vals ++ [w]) (tys ++ [classifyWord w])
        lexStep rest r.1 r.2.1 r.2.2
    | .colon =>
      -- scanner.py lines 127-131 (`:=` lookahead); a lone `:` falls through
      -- to the unrecognized-character branch (it is not in SPECIAL_SYMBOLS)
      if c = '=' then
        lexStep rest .normal (vals ++ [":="]) (tys ++ [tokenMapGet ":="])
      else
        let r := lexDispatch c vals tys
        lexStep rest r.1 r.2.1 r.2.2
    | .normal =>
      let r := lexDispatch c vals tys
      lexStep rest r.1 r.2.1 r.2.2

/-- The `str.strip` on a character list: drop whitespace at both ends. -/
def trimWs (l : List Char) : List Char :=
  ((l.dropWhile isWs).reverse.dropWhile isWs).reverse

/-- The `line.lower().strip()` (scanner.py line 55). -/
def normLine (s : String) : List Char :=
  trimWs (s.toList.map Char.toLower)

/-- The `get_token(line, in_comment)` of scanner.py: returns the per-line token
value list, token type list, and the updated comment flag. -/
def getToken (line : String) (inComment : Bool) :
    List String × List String × Bool :=
  lexStep (normLine line) (if inComment then .comment else .normal) [] []

/-- The per-line accumulation loop of `scanningFile` (scanner.py lines
169-176): thread the comment flag through the lines; a line whose token type
list is empty is not emitted.  Returns (value lines, type lines, final flag).
(The surrounding file I/O and error prompts of `scanningFile` are not part of
the scanning contract and are not modelled.) -/
def scanLines : List String → Bool → List (List String) × List (List String) × Bool
  | [], inC => ([], [], inC)
  | l :: ls, inC =>
    let r := getToken l inC
    let rest := scanLines ls r.2.2
    if r.2.1 = [] then rest
    else (r.1 :: rest.1, r.2.1 :: rest.2.1, rest.2.2)

/-! ### The token persistence format

Writer: scanner.py line 221 writes `f"{t_value},{t_type}\n"`, one line per
token.  Loader: parser.py `load_tokens_from_file` (lines 354-371) strips each
line, skips empty lines, splits on `','`, takes the last part (stripped) as
the type and rejoins the rest with `','` (stripped) as the value.  Both are
modelled at the level of lines (lists of characters). -/

/-- Python `str.split(sep)` for a one-character separator. -/
def splitOnChar (c : Char) : List Char → List (List Char)
  | [] => [[]]
  | x :: xs =>
    let r := splitOnChar c xs
    if x = c then [] :: r
    else
      match r with
      | [] => [[x]]
      | h :: t => (x :: h) :: t

/-- Python `sep.join(parts)` for a one-character separator. -/
def intercalateChar (c : Char) : List (List Char) → List Char
  | [] => []
  | [x] => x
  | x :: xs => x ++ c :: intercalateChar c xs

/-- One line of `load_tokens_from_file` (parser.py lines 358-367):
strip, skip if empty, split on `','`, need at least two parts, the type is
the stripped last part, the value is the stripped rejoin of the others. -/
def loadTokenLine (line : List Char) : Option (List Char × List Char) :=
  let l := trimWs line
  if l = [] then none
  else
    let parts := splitOnChar ',' l
    if 2 ≤ parts.length then
      some (trimWs (intercalateChar ',' parts.dropLast),
            trimWs ((parts.getLast?).getD []))
    else none

/-- The `load_tokens_from_file` over a list of lines. -/
def loadTokens (lines : List (List Char)) : List (List Char × List Char) :=
  lines.filterMap loadTokenLine

/-- The line written for one token by scanner.py line 221 (`lexeme,KIND`). -/
def writeTokenLine (v ty : List Char) : List Char := v ++ ',' :: ty

/-! ### The parser (parser.py) -/

/-- A parser token `(token_value, token_type)` (parser.py line 59). -/
abbrev Token := String × String

/-- The mutable parser state (`Parser.__init__`, parser.py lines 54-64):
current token index and accumulated diagnostics.  `nextId` counts the
`ASTNode` constructions performed so far; node number `k` receives the
`k`-th draw of the ambient uuid stream (parser.py line 22). -/
structure PState where
  idx : Nat
  errors : List String
  nextId : Nat
deriving Repr, DecidableEq

/-- An AST node (class `ASTNode`, parser.py lines 8-33): the uuid draw index
standing for `id`, `node_type`, optional `value`, ordered `children`, the
optional `sibling` across-link, and the GUI hints `shape` and `depth`. -/
inductive ASTNode where
  | mk (id : Nat) (nodeType : String) (value : Option String)
       (children : List ASTNode) (sibling : Option ASTNode)
       (shape : String) (depth : Nat)

/-- The `ASTNode.add_child` (parser.py lines 30-33): append, skipping `None`. -/
def ASTNode.addChild : ASTNode → Option ASTNode → ASTNode
  | n, none => n
  | .mk i t v cs sib sh d, some c => .mk i t v (cs ++ [c]) sib sh d

/-- The mutation `node.sibling = next` of `stmt_sequence` (parser.py line 140). -/
def ASTNode.setSibling : ASTNode → Option ASTNode → ASTNode
  | .mk i t v cs _ sh d, sib => .mk i t v cs sib sh d

def ASTNode.idOf : ASTNode → Nat
  | .mk i _ _ _ _ _ _ => i

def ASTNode.typeOf : ASTNode → String
  | .mk _ t _ _ _ _ _ => t

def ASTNode.valueOf : ASTNode → Option String
  | .mk _ _ v _ _ _ _ => v

def ASTNode.childrenOf : ASTNode → List ASTNode
  | .mk _ _ _ cs _ _ _ => cs

def ASTNode.siblingOf : ASTNode → Option ASTNode
  | .mk _ _ _ _ sib _ _ => sib

/-- Rebuild the sibling chain produced by the pointer assignments of
`stmt_sequence` (parser.py lines 134-143): link the collected statement
nodes in order.  Linking right-to-left on immutable nodes produces the same
tree as the source's left-to-right `current_stmt.sibling = next_stmt`
mutations, because each node is freshly created with `sibling = None` and is
aliased only by the chain itself. -/
def linkChain : ASTNode → List ASTNode → ASTNode
  | n, [] => n
  | n, x :: xs => n.setSibling (some (linkChain x xs))

/-- The `Parser.get_token` (parser.py lines 66-75): current token or `None`. -/
def peek (T : List Token) (s : PState) : Option Token := T[s.idx]?

/-- The diagnostic text of a failed `match` (parser.py line 94). -/
def errMsg (expected actual : String) (idx : Nat) : String :=
  "Syntax Error: Expected " ++ expected ++ ", found " ++ actual ++
    " at index " ++ toString idx

/-- The `Parser.match` (parser.py lines 77-95): consume the current token if its
type is the expected one and return its value; otherwise record a diagnostic
and do not advance. -/
def pmatch (T : List Token) (expected : String) (s : PState) :
    Option String × PState :=
  match T[s.idx]? with
  | some tok =>
    if tok.2 = expected then (some tok.1, { s with idx := s.idx + 1 })
    else (none, { s with errors := s.errors ++ [errMsg expected tok.2 s.idx] })
  | none => (none, { s with errors := s.errors ++ [errMsg expected "EOF" s.idx] })

/-- The `ASTNode.__init__` (parser.py lines 21-28): a fresh node with the next
uuid draw index, no children and no sibling. -/
def newNode (s : PState) (ty : String) (v : Option String) (shape : String)
    (depth : Nat) : ASTNode × PState :=
  (ASTNode.mk s.nextId ty v [] none shape depth, { s with nextId := s.nextId + 1 })

/-- The f-string `f"({name})"` used for node values (parser.py lines 221,
234, 259, 280, 303, 329, 332): Python renders a failed match (`None`) as the
text `None`. -/
def paren (o : Option String) : String :=
  "(" ++ (match o with | some v => v | none => "None") ++ ")"

/-- The `read_stmt` (parser.py lines 228-234); not recursive, hence fuel-free. -/
def readStmtF (T : List Token) (depth : Nat) (s : PState) : ASTNode × PState :=
  let (_, s1) := pmatch T "READ" s
  let (name, s2) := pmatch T "IDENTIFIER" s1
  newNode s2 "read" (some (paren name)) "rect" depth

mutual

/-- The `statement` (parser.py lines 147-168): dispatch on the current token;
an unexpected leading token is reported and then forcibly consumed
(`self.match(token[1])`, which always succeeds on the token's own type). -/
def statementF (T : List Token) (fuel depth : Nat) (s : PState) :
    Option (Option ASTNode × PState) :=
  match fuel with
  | 0 => none
  | fuel+1 =>
    match T[s.idx]? with
    | none => some (none, s)
    | some tok =>
      if tok.2 = "IF" then ifStmtF T fuel depth s
      else if tok.2 = "REPEAT" then repeatStmtF T fuel depth s
      else if tok.2 = "IDENTIFIER" then assignStmtF T fuel depth s
      else if tok.2 = "READ" then
        let r := readStmtF T depth s
        some (some r.1, r.2)
      else if tok.2 = "WRITE" then writeStmtF T fuel depth s
      else
        let s1 : PState :=
          { s with errors := s.errors ++
              ["Syntax Error: Unexpected token " ++ tok.1 ++ " at start of statement."] }
        let (_, s2) := pmatch T tok.2 s1
        some (none, s2)
termination_by structural fuel

/-- The `stmt_sequence` (parser.py lines 125-145): first statement, then the
semicolon loop; the collected later statements are linked onto the first via
the sibling field, and dropped when the first is `None` (the source's
`if current_stmt and next_stmt` guard never fires then). -/
def stmtSequenceF (T : List Token) (fuel depth : Nat) (s : PState) :
    Option (Option ASTNode × PState) :=
  match fuel with
  | 0 => none
  | fuel+1 =>
    match statementF T fuel depth s with
    | none => none
    | some (first, s1) =>
      match stmtSeqLoopF T fuel depth s1 with
      | none => none
      | some (rest, s2) => some (first.map (fun n => linkChain n rest), s2)
termination_by structural fuel

/-- The `while True` loop of `stmt_sequence` (parser.py lines 134-143):
while the current token is a semicolon, consume it and parse another
statement; collect the non-`None` results in order. -/
def stmtSeqLoopF (T : List Token) (fuel depth : Nat) (s : PState) :
    Option (List ASTNode × PState) :=
  match fuel with
  | 0 => none
  | fuel+1 =>
    match T[s.idx]? with
    | some tok =>
      if tok.2 = "SEMICOLON" then
        let (_, s1) := pmatch T "SEMICOLON" s
        match statementF T fuel depth s1 with
        | none => none
        | some (next, s2) =>
          match stmtSeqLoopF T fuel depth s2 with
          | none => none
          | some (rest, s3) =>
            some ((match next with | some n => n :: rest | none => rest), s3)
      else some ([], s)
    | none => some ([], s)
termination_by structural fuel

/-- The `if_stmt` (parser.py lines 170-195). -/
def ifStmtF (T : List Token) (fuel depth : Nat) (s : PState) :
    Option (Option ASTNode × PState) :=
  match fuel with
  | 0 => none
  | fuel+1 =>
    let (_, s1) := pmatch T "IF" s
    let (node0, s2) := newNode s1 "if" none "rect" depth
    match expF T fuel (depth+1) s2 with
    | none => none
    | some (expN, s3) =>
      let node1 := node0.addChild expN
      let (_, s4) := pmatch T "THEN" s3
      match stmtSequenceF T fuel (depth+1) s4 with
      | none => none
      | some (thenN, s5) =>
        let node2 := node1.addChild thenN
        match T[s5.idx]? with
        | some tok =>
          if tok.2 = "ELSE" then
            let (_, s6) := pmatch T "ELSE" s5
            match stmtSequenceF T fuel (depth+1) s6 with
            | none => none
            | some (elseN, s7) =>
              let node3 := node2.addChild elseN
              let (_, s8) := pmatch T "END" s7
              some (some node3, s8)
          else
            let (_, s6) := pmatch T "END" s5
            some (some node2, s6)
        | none =>
          let (_, s6) := pmatch T "END" s5
          some (some node2, s6)
termination_by structural fuel

/-- The `repeat_stmt` (parser.py lines 197-211). -/
def repeatStmtF (T : List Token) (fuel depth : Nat) (s : PState) :
    Option (Option ASTNode × PState) :=
  match fuel with
  | 0 => none
  | fuel+1 =>
    let (_, s1) := pmatch T "REPEAT" s
    let (node0, s2) := newNode s1 "repeat" none "rect" depth
    match stmtSequenceF T fuel (depth+1) s2 with
    | none => none
    | some (body, s3) =>
      let node1 := node0.addChild body
      let (_, s4) := pmatch T "UNTIL" s3
      match expF T fuel (depth+1) s4 with
      | none => none
      | some (test, s5) => some (some (node1.addChild test), s5)
termination_by structural fuel

/-- The `assign_stmt` (parser.py lines 213-226): the variable name is part of the
assign node's value. -/
def assignStmtF (T : List Token) (fuel depth : Nat) (s : PState) :
    Option (Option ASTNode × PState) :=
  match fuel with
  | 0 => none
  | fuel+1 =>
    let (name, s1) := pmatch T "IDENTIFIER" s
    let (_, s2) := pmatch T "ASSIGN" s1
    let (node0, s3) := newNode s2 "assign" (some (paren name)) "rect" depth
    match expF T fuel (depth+1) s3 with
    | none => none
    | some (e, s4) => some (some (node0.addChild e), s4)

/-- The `write_stmt` (parser.py lines 236-244). -/
def writeStmtF (T : List Token) (fuel depth : Nat) (s : PState) :
    Option (Option ASTNode × PState) :=
  match fuel with
  | 0 => none
  | fuel+1 =>
    let (_, s1) := pmatch T "WRITE" s
    let (node0, s2) := newNode s1 "write" none "rect" depth
    match expF T fuel (depth+1) s2 with
    | none => none
    | some (e, s3) => some (some (node0.addChild e), s3)

/-- The `exp` (parser.py lines 246-266): at most one `<`/`=` comparison; the
comparison node's value is built from the matched token value (the local
`op_val` of the source is computed but never used). -/
def expF (T : List Token) (fuel depth : Nat) (s : PState) :
    Option (Option ASTNode × PState) :=
  match fuel with
  | 0 => none
  | fuel+1 =>
    match simpleExpF T fuel depth s with
    | none => none
    | some (lhs, s1) =>
      match T[s1.idx]? with
      | some tok =>
        if tok.2 = "LESSTHAN" ∨ tok.2 = "EQUAL" then
          let (opv, s2) := pmatch T tok.2 s1
          let (node0, s3) := newNode s2 "op" (some (paren opv)) "oval" depth
          let node1 := node0.addChild lhs
          match simpleExpF T fuel (depth+1) s3 with
          | none => none
          | some (rhs, s4) => some (some (node1.addChild rhs), s4)
        else some (lhs, s1)
      | none => some (lhs, s1)
termination_by structural fuel

/-- The `simple_exp` (parser.py lines 268-289): a term followed by the
left-associative `+`/`-` loop. -/
def simpleExpF (T : List Token) (fuel depth : Nat) (s : PState) :
    Option (Option ASTNode × PState) :=
  match fuel with
  | 0 => none
  | fuel+1 =>
    match termF T fuel depth s with
    | none => none
    | some (lhs, s1) => simpleExpLoopF T fuel depth lhs s1
termination_by structural fuel

/-- The `while True` loop of `simple_exp` (parser.py lines 275-288): while
the current token is `+` or `-`, make a new op node with the previous
left-hand node as child 0 and the freshly parsed term as child 1, and let it
become the new left-hand node. -/
def simpleExpLoopF (T : List Token) (fuel depth : Nat) (lhs : Option ASTNode) (s : PState) :
    Option (Option ASTNode × PState) :=
  match fuel with
  | 0 => none
  | fuel+1 =>
    match T[s.idx]? with
    | some tok =>
      if tok.2 = "PLUS" ∨ tok.2 = "MINUS" then
        let (opv, s1) := pmatch T tok.2 s
        let (node0, s2) := newNode s1 "op" (some (paren opv)) "oval" depth
        let node1 := node0.addChild lhs
        match termF T fuel (depth+1) s2 with
        | none => none
        | some (rhs, s3) => simpleExpLoopF T fuel depth (some (node1.addChild rhs)) s3
      else some (lhs, s)
    | none => some (lhs, s)
termination_by structural fuel

/-- The `term` (parser.py lines 291-312): a factor followed by the
left-associative `*`/`/` loop. -/
def termF (T : List Token) (fuel depth : Nat) (s : PState) :
    Option (Option ASTNode × PState) :=
  match fuel with
  | 0 => none
  | fuel+1 =>
    match factorF T fuel depth s with
    | none => none
    | some (lhs, s1) => termLoopF T fuel depth lhs s1
termination_by structural fuel

/-- The `while True` loop of `term` (parser.py lines 298-311). -/
def termLoopF (T : List Token) (fuel depth : Nat) (lhs : Option ASTNode) (s : PState) :
    Option (Option ASTNode × PState) :=
  match fuel with
  | 0 => none
  | fuel+1 =>
    match T[s.idx]? with
    | some tok =>
      if tok.2 = "MULT" ∨ tok.2 = "DIV" then
        let (opv, s1) := pmatch T tok.2 s
        let (node0, s2) := newNode s1 "op" (some (paren opv)) "oval" depth
        let node1 := node0.addChild lhs
        match factorF T fuel (depth+1) s2 with
        | none => none
        | some (rhs, s3) => termLoopF T fuel depth (some (node1.addChild rhs)) s3
      else some (lhs, s)
    | none => some (lhs, s)
termination_by structural fuel

/-- The `factor` (parser.py lines 314-336): parenthesized expression, number, or
identifier; an unexpected token is reported and the index advanced by one. -/
def factorF (T : List Token) (fuel depth : Nat) (s : PState) :
    Option (Option ASTNode × PState) :=
  match fuel with
  | 0 => none
  | fuel+1 =>
    match T[s.idx]? with
    | none => some (none, s)
    | some tok =>
      if tok.2 = "OPENBRACKET" then
        let (_, s1) := pmatch T "OPENBRACKET" s
        match expF T fuel depth s1 with
        | none => none
        | some (node, s2) =>
          let (_, s3) := pmatch T "CLOSEDBRACKET" s2
          some (node, s3)
      else if tok.2 = "NUMBER" then
        let (v, s1) := pmatch T "NUMBER" s
        let r := newNode s1 "const" (some (paren v)) "oval" depth
        some (some r.1, r.2)
      else if tok.2 = "IDENTIFIER" then
        let (v, s1) := pmatch T "IDENTIFIER" s
        let r := newNode s1 "id" (some (paren v)) "oval" depth
        some (some r.1, r.2)
      else
        let s1 : PState :=
          { s with errors := s.errors ++
              ["Syntax Error: Unexpected token " ++ tok.1 ++
                " in expression at index " ++ toString s.idx] }
        some (none, { s1 with idx := s1.idx + 1 })

termination_by structural fuel
end

/-- The `program` (parser.py lines 121-123): `parse` calls it with depth 0. -/
def programF (T : List Token) (fuel : Nat) (s : PState) :
    Option (Option ASTNode × PState) :=
  stmtSequenceF T fuel 0 s

/-- The record returned by `Parser.parse` (parser.py lines 111-115). -/
structure ParseResult where
  status : String
  root : Option ASTNode
  errors : List String

/-- The state of a freshly constructed `Parser` (parser.py lines 54-64). -/
def initState : PState := ⟨0, [], 0⟩

/-- The trailing-token diagnostic of `Parser.parse` (parser.py line 108). -/
def trailingMsg : String := "Syntax Error: Unexpected tokens remaining after parsing."

/-- The `Parser.parse` (parser.py lines 97-115): run `program`, append the
trailing-tokens diagnostic when the cursor stopped early with no prior
errors, and derive the status from the final error list. -/
def parseF (T : List Token) (fuel : Nat) : Option ParseResult :=
  match programF T fuel initState with
  | none => none
  | some (root, s1) =>
    let errs :=
      if s1.idx < T.length ∧ s1.errors = [] then s1.errors ++ [trailingMsg]
      else s1.errors
    some ⟨if errs = [] then "Accepted" else "Rejected", root, errs⟩

/-- The `Parser.parse` with enough fuel for any token list (see the termination
theorems below: `20 * T.length + 20` steps always suffice). -/
def parseTop (T : List Token) : Option ParseResult :=
  parseF T (20 * T.length + 20)

/-! ### Serialization (`ASTNode.to_dict`, parser.py lines 35-48)

`to_dict` emits `{id, type, value, shape, depth, children, sibling}` where
`id` is the uuid string drawn at construction.  Here the uuid stream is an
explicit parameter `supply : Nat → String`: node number `k` serializes with
id `supply k`.  The serializer is fueled for the same reason as the parser;
`dictFuel` below is a crude but sufficient bound on the node depth. -/

/-- The nested dictionary produced by `to_dict`. -/
inductive NodeDict where
  | mk (id : String) (nodeType : String) (value : Option String)
       (shape : String) (depth : Nat)
       (children : List NodeDict) (sibling : Option NodeDict)

def NodeDict.idOf : NodeDict → String
  | .mk i _ _ _ _ _ _ => i

/-- The `to_dict` with an explicit uuid stream, by fuel. -/
def toDictF (supply : Nat → String) : Nat → ASTNode → NodeDict
  | 0, _ => .mk "" "" none "" 0 [] none
  | fuel+1, .mk i t v cs sib sh d =>
    .mk (supply i) t v sh d (cs.map (toDictF supply fuel))
      (sib.map (toDictF supply fuel))

/-- Erase every id field of a serialized tree (by fuel, like `toDictF`). -/
def eraseIdsF : Nat → NodeDict → NodeDict
  | 0, d => d
  | fuel+1, .mk _ t v sh dp cs sib =>
    .mk "" t v sh dp (cs.map (eraseIdsF fuel)) (sib.map (eraseIdsF fuel))

/-! ## Theorems -/

/-- The id-erased serialization does not depend on the uuid stream: erasing
ids from `to_dict` output produced with stream `f` or with stream `g` gives
the same tree. -/
theorem eraseIdsF_toDictF (f g : Nat → String) :
    ∀ (fuel : Nat) (n : ASTNode),
      eraseIdsF fuel (toDictF f fuel n) = eraseIdsF fuel (toDictF g fuel n)
  | 0, _ => rfl
  | fuel+1, .mk i t v cs sib sh d => by
    simp only [toDictF, eraseIdsF, List.map_map, NodeDict.mk.injEq, true_and]
    refine ⟨List.map_congr_left (fun x _ => ?_), ?_⟩
    · exact eraseIdsF_toDictF f g fuel x
    · cases sib with
      | none => rfl
      | some m => simpa using eraseIdsF_toDictF f g fuel m

/-- Claim C1.  The spec says a letter run reading `else` is classified as the
keyword token ELSE because `else` is in the fixed keyword set.  The code
disagrees with its own token table: `TOKEN_MAP` maps `"else"` to `ELSE`
(scanner.py line 11) and the parser has an ELSE branch (parser.py line 189),
but `KEYWORDS` (scanner.py line 31) omits `"else"`, so the scanner emits the
token type IDENTIFIER for the input `else`.  This theorem evaluates the
embedded scanner at the failing input and exhibits the internal
contradiction. -/
theorem claim1_else_scanned_as_identifier :
    getToken "else" false = (["else"], ["IDENTIFIER"], false) ∧
      ("else", "ELSE") ∈ tokenMap ∧ "else" ∉ keywords := by
  refine ⟨by decide, by decide, by decide⟩

/-- Claim C7.  Scanning the line `ab12` emits exactly two tokens in order:
Identifier `ab`, then Number `12` — never one combined token, because digits
cannot extend a letter run in this scanner. -/
theorem claim7_ab12_two_tokens :
    getToken "ab12" false = (["ab", "12"], ["IDENTIFIER", "NUMBER"], false) := by
  decide

/-- Claim C9.  Parsing an empty token sequence yields status `Accepted` with
root `None` and no diagnostics: `statement` at end of input returns `None`
without recording anything, and the trailing-token check does not fire. -/
theorem claim9_empty_token_list_accepted :
    parseTop [] = some ⟨"Accepted", none, []⟩ ∧
      statementF [] 1 0 initState = some (none, initState) :=
  ⟨rfl, rfl⟩

/-- Claim C2, counterexample.  Node ids are drawn from `uuid.uuid4()`
(parser.py line 22), modelled as an ambient uuid stream; two parse
invocations on the same input observe two different streams.  With the
stream that yields `"a"` and the stream that yields `"b"`, the serialized
forms of the same input differ (in their id fields), so the claim that two
invocations produce identical serialized forms including ids is false. -/
theorem claim2_counterexample :
    (parseTop [("x", "IDENTIFIER"), (":=", "ASSIGN"), ("1", "NUMBER")]).map
        (fun r => r.root.map (toDictF (fun _ => "a") 9)) ≠
      (parseTop [("x", "IDENTIFIER"), (":=", "ASSIGN"), ("1", "NUMBER")]).map
        (fun r => r.root.map (toDictF (fun _ => "b") 9)) := by
  intro h
  have h2 := congrArg
    (fun o => (((o.getD none).getD (NodeDict.mk "" "" none "" 0 [] none)).idOf)) h
  revert h2
  decide

/-- Claim C2, amended.  Node ids come from `uuid.uuid4()`, i.e. from a random
uuid stream consumed at node construction, not from a deterministic counter;
two parse invocations on the same input produce ASTs whose serialized forms
are identical except possibly in the id fields: erasing ids, the serialized
outputs under any two uuid streams coincide. -/
theorem claim2_amended_deterministic_modulo_ids
    (T : List Token) (f g : Nat → String) (fuel : Nat) :
    (parseTop T).map (fun r => r.root.map (fun n => eraseIdsF fuel (toDictF f fuel n))) =
      (parseTop T).map (fun r => r.root.map (fun n => eraseIdsF fuel (toDictF g fuel n))) := by
  cases hp : parseTop T with
  | none => rfl
  | some r =>
    cases hr : r.root with
    | none => simp [hr]
    | some n => simp [hr, eraseIdsF_toDictF f g fuel n]

/-- Claim C5.  Additive operators are built left-associatively: one loop step
of `simple_exp` wraps the previously built node as child 0 and the freshly
parsed term as child 1 of a new op node, which becomes the new left-hand
node; consequently `8-3-2` parses to an outer `-` node whose child 0 is the
`-` node over 8 and 3 and whose child 1 is the constant 2. -/
theorem claim5_left_associative :
    (expF [("8", "NUMBER"), ("-", "MINUS"), ("3", "NUMBER"),
           ("-", "MINUS"), ("2", "NUMBER")] 40 0 ⟨0, [], 0⟩ =
      some (some (ASTNode.mk 3 "op" (some "(-)")
        [ASTNode.mk 1 "op" (some "(-)")
          [ASTNode.mk 0 "const" (some "(8)") [] none "oval" 0,
           ASTNode.mk 2 "const" (some "(3)") [] none "oval" 1]
          none "oval" 0,
         ASTNode.mk 4 "const" (some "(2)") [] none "oval" 1]
        none "oval" 0), ⟨5, [], 5⟩)) ∧
    ∀ (T : List Token) (fuel depth : Nat) (lhs : ASTNode) (s : PState)
      (v ty : String) (rhs : ASTNode) (s3 : PState),
      T[s.idx]? = some (v, ty) →
      ty = "PLUS" ∨ ty = "MINUS" →
      termF T fuel (depth+1) ⟨s.idx + 1, s.errors, s.nextId + 1⟩ = some (some rhs, s3) →
      simpleExpLoopF T (fuel+1) depth (some lhs) s =
        simpleExpLoopF T fuel depth
          (some (ASTNode.mk s.nextId "op" (some ("(" ++ v ++ ")")) [lhs, rhs]
            none "oval" depth)) s3 := by
  refine ⟨rfl, ?_⟩
  intro T fuel depth lhs s v ty rhs s3 hpeek hty hterm
  have hty2 : ((v, ty) : Token).2 = "PLUS" ∨ ((v, ty) : Token).2 = "MINUS" := hty
  simp only [simpleExpLoopF, hpeek, hty2, if_pos, pmatch, newNode, ASTNode.addChild, paren]
  rcases hty with h | h <;>
    simp [h, pmatch, hpeek, newNode, ASTNode.addChild, paren, hterm]

/-- Witness for the hypotheses of `claim5_left_associative`: one concrete
loop step on the tail `- 2` of `8-3-2`, starting from the state just after
`8-3` has been consumed. -/
theorem claim5_witness :
    simpleExpLoopF [("8", "NUMBER"), ("-", "MINUS"), ("3", "NUMBER"),
        ("-", "MINUS"), ("2", "NUMBER")] 11 0
        (some (ASTNode.mk 1 "op" (some "(-)")
          [ASTNode.mk 0 "const" (some "(8)") [] none "oval" 0,
           ASTNode.mk 2 "const" (some "(3)") [] none "oval" 1] none "oval" 0))
        ⟨3, [], 3⟩ =
      simpleExpLoopF [("8", "NUMBER"), ("-", "MINUS"), ("3", "NUMBER"),
        ("-", "MINUS"), ("2", "NUMBER")] 10 0
        (some (ASTNode.mk 3 "op" (some "(-)")
          [ASTNode.mk 1 "op" (some "(-)")
            [ASTNode.mk 0 "const" (some "(8)") [] none "oval" 0,
             ASTNode.mk 2 "const" (some "(3)") [] none "oval" 1] none "oval" 0,
           ASTNode.mk 4 "const" (some "(2)") [] none "oval" 1] none "oval" 0))
        ⟨5, [], 5⟩ :=
  claim5_left_associative.2 _ 10 0 _ ⟨3, [], 3⟩ "-" "MINUS" _ ⟨5, [], 5⟩
    rfl (Or.inr rfl) rfl

/-- Claim C6.  After `program` returns, if the cursor has not reached the end
of the token sequence and no diagnostics were recorded, exactly one
trailing-tokens diagnostic is appended and the status is `Rejected`. -/
theorem claim6_trailing_tokens
    (T : List Token) (fuel : Nat) (root : Option ASTNode) (s1 : PState)
    (hprog : programF T fuel initState = some (root, s1))
    (hidx : s1.idx < T.length) (herr : s1.errors = []) :
    parseF T fuel = some ⟨"Rejected", root, [trailingMsg]⟩ := by
  simp [parseF, hprog, hidx, herr, trailingMsg]

/-- Witness for `claim6_trailing_tokens`: the well-formed statement `read x`
followed by the stray token `y` is Rejected with exactly the trailing-tokens
diagnostic. -/
theorem claim6_witness :
    parseF [("read", "READ"), ("x", "IDENTIFIER"), ("y", "IDENTIFIER")] 100 =
      some ⟨"Rejected", some (ASTNode.mk 0 "read" (some "(x)") [] none "rect" 0),
        [trailingMsg]⟩ :=
  claim6_trailing_tokens _ 100 _ ⟨2, [], 1⟩ rfl (by decide) rfl

/-- Claim C10.  If the first statement of a statement sequence fails to parse
(returns `None`), `stmt_sequence` returns `None`: the loop still runs (and
may parse later statements successfully, collecting them in `rest`), but the
collected statements are discarded, never attached through a sibling link.
The concrete part shows `+ ; x := 1` yielding root `None` — the second
statement parsed cleanly (no diagnostic about it) yet is unreachable. -/
theorem claim10_first_statement_none
    (T : List Token) (fuel depth : Nat) (s s1 : PState)
    (hfirst : statementF T fuel depth s = some (none, s1)) :
    stmtSequenceF T (fuel+1) depth s =
      (stmtSeqLoopF T fuel depth s1).map (fun p => (none, p.2)) := by
  simp only [stmtSequenceF, hfirst]
  cases h : stmtSeqLoopF T fuel depth s1 with
  | none => rfl
  | some p => simp

/-- Witness for `claim10_first_statement_none`, plus the concrete evaluation:
on `+ ; x := 1` the first statement panics (root `None`) while the second
parses; the parse result keeps root `None` with only the panic diagnostic. -/
theorem claim10_witness :
    stmtSequenceF [("+", "PLUS"), (";", "SEMICOLON"), ("x", "IDENTIFIER"),
        (":=", "ASSIGN"), ("1", "NUMBER")] 100 0 initState =
      (stmtSeqLoopF [("+", "PLUS"), (";", "SEMICOLON"), ("x", "IDENTIFIER"),
        (":=", "ASSIGN"), ("1", "NUMBER")] 99 0
        ⟨1, ["Syntax Error: Unexpected token + at start of statement."], 0⟩).map
        (fun p => (none, p.2)) ∧
    parseTop [("+", "PLUS"), (";", "SEMICOLON"), ("x", "IDENTIFIER"),
        (":=", "ASSIGN"), ("1", "NUMBER")] =
      some ⟨"Rejected", none,
        ["Syntax Error: Unexpected token + at start of statement."]⟩ :=
  ⟨claim10_first_statement_none _ 99 0 initState
    ⟨1, ["Syntax Error: Unexpected token + at start of statement."], 0⟩ rfl, rfl⟩

/-! ### The token persistence round trip (claim C8) -/

theorem splitOnChar_ne_nil (c : Char) (l : List Char) : splitOnChar c l ≠ [] := by
  induction l with
  | nil => simp [splitOnChar]
  | cons x xs ih =>
    simp only [splitOnChar]
    split
    · simp
    · cases h : splitOnChar c xs with
      | nil => simp
      | cons hd tl => simp

/-- Splitting on a separator distributes over an explicit occurrence of the
separator: the pieces of `xs` are followed by the pieces of `ys`. -/
theorem splitOnChar_append (c : Char) (xs ys : List Char) :
    splitOnChar c (xs ++ c :: ys) = splitOnChar c xs ++ splitOnChar c ys := by
  induction xs with
  | nil => simp [splitOnChar]
  | cons x xs ih =>
    by_cases hx : x = c
    · subst hx
      simp [splitOnChar, ih]
    · simp only [List.cons_append, splitOnChar, hx, if_false, List.append_eq]
      rw [ih]
      cases h : splitOnChar c xs with
      | nil => exact absurd h (splitOnChar_ne_nil c xs)
      | cons hd tl => simp

/-- A separator-free list splits into exactly one piece. -/
theorem splitOnChar_no_sep (c : Char) (ys : List Char) (h : c ∉ ys) :
    splitOnChar c ys = [ys] := by
  induction ys with
  | nil => rfl
  | cons y ys ih =>
    have hy : ¬ y = c := by rintro rfl; exact h (List.mem_cons_self _ _)
    have h2 : c ∉ ys := fun hm => h (List.mem_cons_of_mem _ hm)
    simp [splitOnChar, hy, ih h2]

/-- Rejoining the pieces with the separator restores the original list
(Python `",".join(s.split(","))` is the identity). -/
theorem intercalateChar_splitOnChar (c : Char) (v : List Char) :
    intercalateChar c (splitOnChar c v) = v := by
  induction v with
  | nil => rfl
  | cons x xs ih =>
    by_cases hx : x = c
    · subst hx
      simp only [splitOnChar, if_pos rfl]
      cases h : splitOnChar x xs with
      | nil => exact absurd h (splitOnChar_ne_nil x xs)
      | cons hd tl =>
        rw [h] at ih
        simpa [intercalateChar] using ih
    · simp only [splitOnChar, if_neg hx]
      cases h : splitOnChar c xs with
      | nil => exact absurd h (splitOnChar_ne_nil c xs)
      | cons hd tl =>
        rw [h] at ih
        cases tl with
        | nil => simpa [intercalateChar] using ih
        | cons t ts => simpa [intercalateChar] using ih

/-- If dropping leading whitespace leaves a cons unchanged, its head is not
whitespace. -/
theorem not_isWs_head {a : Char} {l2 : List Char}
    (h : (a :: l2).dropWhile isWs = a :: l2) : isWs a = false := by
  by_contra hb
  simp only [Bool.not_eq_false] at hb
  rw [List.dropWhile_cons, if_pos hb] at h
  have hle := (List.dropWhile_suffix (l := l2) isWs).sublist.length_le
  rw [h] at hle
  simp at hle

/-- A `strip`-fixed list is fixed by dropping whitespace at either end. -/
theorem trimWs_fixed_dropWhile {l : List Char} (h : trimWs l = l) :
    l.dropWhile isWs = l ∧ l.reverse.dropWhile isWs = l.reverse := by
  have h1 := (List.dropWhile_suffix (l := l) isWs).sublist
  have h2 := (List.dropWhile_suffix (l := (l.dropWhile isWs).reverse) isWs).sublist
  have hlen : l.length = ((l.dropWhile isWs).reverse.dropWhile isWs).length := by
    have hc := congrArg List.length h
    simpa [trimWs] using hc.symm
  have e1 : (l.dropWhile isWs).length = l.length := by
    have hA := h1.length_le
    have hB := h2.length_le
    simp only [List.length_reverse] at hB
    omega
  have hd : l.dropWhile isWs = l := h1.eq_of_length e1
  refine ⟨hd, ?_⟩
  have h3 : trimWs l = (l.reverse.dropWhile isWs).reverse := by
    simp [trimWs, hd]
  rw [h] at h3
  have h4 := congrArg List.reverse h3
  simpa using h4.symm

/-- Stripping the line `lexeme,KIND` is the identity when lexeme and KIND are
themselves stripped: the separator `,` shields the interior. -/
theorem trimWs_append_comma {v ty : List Char} (hv : trimWs v = v)
    (hty : trimWs ty = ty) : trimWs (v ++ ',' :: ty) = v ++ ',' :: ty := by
  obtain ⟨hv1, hv2⟩ := trimWs_fixed_dropWhile hv
  obtain ⟨hty1, hty2⟩ := trimWs_fixed_dropWhile hty
  have front : (v ++ ',' :: ty).dropWhile isWs = v ++ ',' :: ty := by
    cases v with
    | nil => simp [List.dropWhile_cons, isWs]
    | cons a v2 =>
      have ha := not_isWs_head hv1
      simp [List.dropWhile_cons, ha]
  have back : (v ++ ',' :: ty).reverse.dropWhile isWs = (v ++ ',' :: ty).reverse := by
    have hshape : (v ++ ',' :: ty).reverse = ty.reverse ++ ',' :: v.reverse := by
      simp
    rw [hshape]
    cases hty3 : ty.reverse with
    | nil => simp [List.dropWhile_cons, isWs]
    | cons b tyr =>
      have hb : isWs b = false := by
        rw [hty3] at hty2
        exact not_isWs_head hty2
      simp [List.dropWhile_cons, hb]
  rw [trimWs, front, back]
  simp

/-- Loading the written line of a stripped, comma-free-kind token recovers
the token exactly. -/
theorem loadTokenLine_writeTokenLine {v ty : List Char}
    (hv : trimWs v = v) (hty : trimWs ty = ty) (hcomma : ',' ∉ ty) :
    loadTokenLine (writeTokenLine v ty) = some (v, ty) := by
  have htrim := trimWs_append_comma hv hty
  have hsplit : splitOnChar ',' (v ++ ',' :: ty) = splitOnChar ',' v ++ [ty] := by
    rw [splitOnChar_append, splitOnChar_no_sep _ _ hcomma]
  have hlen : 2 ≤ (splitOnChar ',' v ++ [ty]).length := by
    cases h : splitOnChar ',' v with
    | nil => exact absurd h (splitOnChar_ne_nil ',' v)
    | cons hd tl => simp
  simp only [loadTokenLine, writeTokenLine, htrim, hsplit]
  rw [if_neg (by simp), if_pos hlen]
  simp [List.dropLast_concat, List.getLast?_concat, intercalateChar_splitOnChar, hv, hty]

/-- Claim C8, counterexample.  The claim quantifies over every token whose
lexeme may contain commas; but the loader strips the rejoined value
(parser.py line 366), so a comma-containing lexeme with trailing whitespace
does not round-trip: `a,b␣` comes back as `a,b`. -/
theorem claim8_counterexample :
    loadTokenLine (writeTokenLine ['a', ',', 'b', ' '] "NUMBER".toList) ≠
      some (['a', ',', 'b', ' '], "NUMBER".toList) := by
  decide

/-- Claim C8, amended.  For every token whose lexeme may contain commas but
carries no leading or trailing whitespace, and whose kind is comma-free and
likewise stripped — which holds for every kind the scanner can emit — writing
the line `lexeme,KIND` and loading it back recovers exactly `(lexeme, KIND)`,
because the loader splits on the last comma only; the same holds per token
for a whole written file. -/
theorem claim8_roundtrip_last_comma :
    (∀ v ty : List Char, trimWs v = v → trimWs ty = ty → ',' ∉ ty →
      loadTokenLine (writeTokenLine v ty) = some (v, ty)) ∧
    ∀ toks : List (List Char × List Char),
      (∀ p ∈ toks, trimWs p.1 = p.1 ∧ trimWs p.2 = p.2 ∧ ',' ∉ p.2) →
      loadTokens (toks.map (fun p => writeTokenLine p.1 p.2)) = toks := by
  refine ⟨fun v ty hv hty hc => loadTokenLine_writeTokenLine hv hty hc, ?_⟩
  intro toks h
  induction toks with
  | nil => rfl
  | cons p ps ih =>
    have hp := h p (List.mem_cons_self _ _)
    have hps := fun q hq => h q (List.mem_cons_of_mem _ hq)
    simp only [List.map_cons, loadTokens, List.filterMap_cons,
      loadTokenLine_writeTokenLine hp.1 hp.2.1 hp.2.2]
    simpa [loadTokens] using ih hps

/-- Witness for `claim8_roundtrip_last_comma`: the comma-containing lexeme
`a,b` with kind `NUMBER` round-trips exactly. -/
theorem claim8_witness :
    loadTokenLine (writeTokenLine ['a', ',', 'b'] "NUMBER".toList) =
      some (['a', ',', 'b'], "NUMBER".toList) :=
  claim8_roundtrip_last_comma.1 ['a', ',', 'b'] "NUMBER".toList
    (by decide) (by decide) (by decide)

/-! ### Multi-line block comments (claim C4) -/

/-- Inside a comment with no closing brace on the rest of the line, the
scanner emits nothing further and reports the comment flag as still set
(scanner.py lines 71-73). -/
theorem lexStep_in_comment (l : List Char) (hl : '}' ∉ l) (vals tys : List String) :
    lexStep l .comment vals tys = (vals, tys, true) := by
  induction l with
  | nil => rfl
  | cons c rest ih =>
    have hc : ¬ c = '}' := fun h => hl (h ▸ List.mem_cons_self _ _)
    have hrest : '}' ∉ rest := fun h => hl (List.mem_cons_of_mem _ h)
    simp [lexStep, hc, ih hrest]

/-- Inside a comment, scanning resumes in normal mode just after the first
closing brace (scanner.py lines 65-70). -/
theorem lexStep_close_comment (c d : List Char) (hc : '}' ∉ c)
    (vals tys : List String) :
    lexStep (c ++ '}' :: d) .comment vals tys = lexStep d .normal vals tys := by
  induction c with
  | nil => rfl
  | cons x xs ih =>
    have hx : ¬ x = '}' := fun h => hc (h ▸ List.mem_cons_self _ _)
    have hxs : '}' ∉ xs := fun h => hc (List.mem_cons_of_mem _ h)
    simp [lexStep, hx, ih hxs]

/-- A character other than `{` can never switch the scanner into comment
mode. -/
theorem lexDispatch_fst_ne_comment (c : Char) (vals tys : List String)
    (hc : ¬ c = '{') : (lexDispatch c vals tys).1 ≠ .comment := by
  simp only [lexDispatch]
  split_ifs <;> simp_all

/-- Scanning `a ++ { ++ b` from any non-comment mode, where `a` is brace-free
and the comment opened by the `{` never closes: the emitted tokens are
exactly those of scanning `a` alone, and the comment flag is reported set.
This is the "tokenization before the `{` is unaffected" half of comment
stripping. -/
theorem lexStep_before_open (b : List Char) (hb : '}' ∉ b) :
    ∀ (a : List Char) (m : LexMode) (vals tys : List String),
      '{' ∉ a → '}' ∉ a → m ≠ .comment →
      lexStep (a ++ '{' :: b) m vals tys =
        ((lexStep a m vals tys).1, (lexStep a m vals tys).2.1, true) := by
  intro a
  induction a with
  | nil =>
    intro m vals tys _ _ hm
    have hdisp : ∀ v t : List String, lexDispatch '{' v t = (.comment, v, t) :=
      fun v t => rfl
    cases m with
    | comment => exact absurd rfl hm
    | normal => simp [lexStep, hdisp, lexStep_in_comment b hb, lexFinish]
    | num acc => simp [lexStep, hdisp, lexStep_in_comment b hb, lexFinish]
    | word acc => simp [lexStep, hdisp, lexStep_in_comment b hb, lexFinish]
    | colon => simp [lexStep, hdisp, lexStep_in_comment b hb, lexFinish]
  | cons x xs ih =>
    intro m vals tys h1 h2 hm
    have hx1 : ¬ x = '{' := fun h => h1 (h ▸ List.mem_cons_self _ _)
    have hx2 : ¬ x = '}' := fun h => h2 (h ▸ List.mem_cons_self _ _)
    have hxs1 : '{' ∉ xs := fun h => h1 (List.mem_cons_of_mem _ h)
    have hxs2 : '}' ∉ xs := fun h => h2 (List.mem_cons_of_mem _ h)
    cases m with
    | comment => exact absurd rfl hm
    | normal =>
      simp only [List.cons_append, lexStep]
      exact ih _ _ _ hxs1 hxs2 (lexDispatch_fst_ne_comment x _ _ hx1)
    | num acc =>
      by_cases hd : x.isDigit
      · simp only [List.cons_append, lexStep, hd, if_true]
        exact ih _ _ _ hxs1 hxs2 (by simp)
      · simp only [List.cons_append, lexStep, hd, if_false]
        exact ih _ _ _ hxs1 hxs2 (lexDispatch_fst_ne_comment x _ _ hx1)
    | word acc =>
      by_cases hd : x.isAlpha
      · simp only [List.cons_append, lexStep, hd, if_true]
        exact ih _ _ _ hxs1 hxs2 (by simp)
      · simp only [List.cons_append, lexStep, hd, if_false]
        exact ih _ _ _ hxs1 hxs2 (lexDispatch_fst_ne_comment x _ _ hx1)
    | colon =>
      by_cases hd : x = '='
      · simp only [List.cons_append, lexStep, hd, if_true]
        exact ih _ _ _ hxs1 hxs2 (by simp)
      · simp only [List.cons_append, lexStep, hd, if_false]
        exact ih _ _ _ hxs1 hxs2 (lexDispatch_fst_ne_comment x _ _ hx1)

/-- Lines wholly inside a comment are transparent to the per-line loop of
`scanningFile`: they emit nothing, are omitted from the output, and pass the
set comment flag on. -/
theorem scanLines_comment_lines (ms : List String)
    (hms : ∀ m ∈ ms, '}' ∉ normLine m) (tail : List String) :
    scanLines (ms ++ tail) true = scanLines tail true := by
  induction ms with
  | nil => rfl
  | cons m ms ih =>
    have hm := hms m (List.mem_cons_self _ _)
    have hrest := fun q hq => hms q (List.mem_cons_of_mem _ hq)
    simp only [List.cons_append, scanLines, getToken, if_pos]
    rw [lexStep_in_comment _ hm]
    simpa using ih hrest

/-- Claim C4.  Block comments spanning several lines: (1) a line wholly
inside a comment contributes zero tokens and keeps the flag set; (2) on the
line that opens an unterminated comment, the tokens before the `{` are
exactly the tokens of the text before the `{`, and the flag is passed on
set; (3) on the line that closes the comment, tokenization restarts just
after the `}` as if the line began there; (4) assembling lines: the
commented lines are omitted from the emitted sequence, the surrounding
tokens are unaffected. -/
theorem claim4_multiline_comment :
    (∀ line : String, '}' ∉ normLine line → getToken line true = ([], [], true)) ∧
    (∀ (line : String) (a b : List Char), normLine line = a ++ '{' :: b →
      '{' ∉ a → '}' ∉ a → '}' ∉ b →
      getToken line false =
        ((lexStep a .normal [] []).1, (lexStep a .normal [] []).2.1, true)) ∧
    (∀ (line : String) (c d : List Char), normLine line = c ++ '}' :: d →
      '}' ∉ c → getToken line true = lexStep d .normal [] []) ∧
    ∀ (l1 : String) (ms : List String) (l3 : String) (a b c d : List Char),
      normLine l1 = a ++ '{' :: b → '{' ∉ a → '}' ∉ a → '}' ∉ b →
      (∀ m ∈ ms, '}' ∉ normLine m) →
      normLine l3 = c ++ '}' :: d → '}' ∉ c →
      scanLines (l1 :: (ms ++ [l3])) false =
        ((if (lexStep a .normal [] []).2.1 = [] then []
            else [(lexStep a .normal [] []).1]) ++
          (if (lexStep d .normal [] []).2.1 = [] then []
            else [(lexStep d .normal [] []).1]),
         (if (lexStep a .normal [] []).2.1 = [] then []
            else [(lexStep a .normal [] []).2.1]) ++
          (if (lexStep d .normal [] []).2.1 = [] then []
            else [(lexStep d .normal [] []).2.1]),
         (lexStep d .normal [] []).2.2) := by
  have part1 : ∀ line : String, '}' ∉ normLine line →
      getToken line true = ([], [], true) := by
    intro line h
    simp only [getToken, if_pos]
    exact lexStep_in_comment _ h [] []
  have part2 : ∀ (line : String) (a b : List Char), normLine line = a ++ '{' :: b →
      '{' ∉ a → '}' ∉ a → '}' ∉ b →
      getToken line false =
        ((lexStep a .normal [] []).1, (lexStep a .normal [] []).2.1, true) := by
    intro line a b hnorm h1 h2 hb
    simp only [getToken]
    rw [if_neg (by simp), hnorm]
    exact lexStep_before_open b hb a .normal [] [] h1 h2 (by simp)
  have part3 : ∀ (line : String) (c d : List Char), normLine line = c ++ '}' :: d →
      '}' ∉ c → getToken line true = lexStep d .normal [] [] := by
    intro line c d hnorm hc
    simp only [getToken, if_pos]
    rw [hnorm]
    exact lexStep_close_comment c d hc [] []
  refine ⟨part1, part2, part3, ?_⟩
  intro l1 ms l3 a b c d hn1 h1 h2 hb hms hn3 hc
  have g1 := part2 l1 a b hn1 h1 h2 hb
  have g3 := part3 l3 c d hn3 hc
  simp only [scanLines, g1]
  rw [scanLines_comment_lines ms hms [l3]]
  simp only [scanLines, g3]
  cases hA : (lexStep a .normal [] []).2.1 with
  | nil =>
    cases hD : (lexStep d .normal [] []).2.1 with
    | nil => simp [scanLines, hA, hD]
    | cons x xs => simp [scanLines, hA, hD]
  | cons y ys =>
    cases hD : (lexStep d .normal [] []).2.1 with
    | nil => simp [scanLines, hA, hD]
    | cons x xs => simp [scanLines, hA, hD]

/-- Witness for `claim4_multiline_comment`: a comment opened on the line
`x := 1 { start`, continued on `inside comment`, and closed on
`end } y := 2` drops the commented text, keeps `x := 1` and `y := 2`, and
omits the middle line from the emitted sequence. -/
theorem claim4_witness :
    scanLines ["x := 1 \x7b start", "inside comment", "end \x7d y := 2"] false =
      ([["x", ":=", "1"], ["y", ":=", "2"]],
       [["IDENTIFIER", "ASSIGN", "NUMBER"], ["IDENTIFIER", "ASSIGN", "NUMBER"]],
       false) := by
  have h := claim4_multiline_comment.2.2.2 "x := 1 \x7b start" ["inside comment"]
    "end \x7d y := 2" "x := 1 ".toList " start".toList "end ".toList " y := 2".toList
    (by decide) (by decide) (by decide) (by decide) (by decide) (by decide) (by decide)
  exact h.trans (by decide)

/-! ### Termination of the parser (claim C3)

The cursor never moves backwards (`*_mono`), every grammar function returns
within a small constant fuel once the cursor is at or past the end
(`*_eof`), and a fuel budget of `rank + 20 * (remaining tokens)` suffices in
general (`*_fuel`), where `rank` orders the grammar functions along the
same-index call chains. -/

theorem PState_mk_idx (i : Nat) (e : List String) (n : Nat) :
    (PState.mk i e n).idx = i := rfl

theorem pmatch_idx_le (T : List Token) (e : String) (s : PState) :
    s.idx ≤ (pmatch T e s).2.idx := by
  unfold pmatch
  cases T[s.idx]? with
  | none => simp
  | some tok =>
    dsimp only
    split_ifs <;> simp

theorem pmatch_idx_le_succ (T : List Token) (e : String) (s : PState) :
    (pmatch T e s).2.idx ≤ s.idx + 1 := by
  unfold pmatch
  cases T[s.idx]? with
  | none => simp
  | some tok =>
    dsimp only
    split_ifs <;> simp

/-- A successful `match` on the peeked token advances the cursor by one. -/
theorem pmatch_success (T : List Token) {tok : Token} {s : PState} {e : String}
    (hp : T[s.idx]? = some tok) (he : tok.2 = e) :
    pmatch T e s = (some tok.1, { s with idx := s.idx + 1 }) := by
  unfold pmatch
  rw [hp]
  simp [he]

/-- A `match` at or past the end of the tokens records a diagnostic and
stays in place. -/
theorem pmatch_eof (T : List Token) {s : PState} {e : String}
    (hp : T[s.idx]? = none) :
    pmatch T e s = (none, { s with errors := s.errors ++ [errMsg e "EOF" s.idx] }) := by
  unfold pmatch
  rw [hp]

theorem readStmtF_idx_le (T : List Token) (depth : Nat) (s : PState) :
    s.idx ≤ (readStmtF T depth s).2.idx := by
  unfold readStmtF newNode
  dsimp only
  have h1 := pmatch_idx_le T "READ" s
  have h2 := pmatch_idx_le T "IDENTIFIER" (pmatch T "READ" s).2
  omega

mutual

theorem statementF_mono (T : List Token) : ∀ (fuel depth : Nat) (s : PState)
    (r : Option ASTNode) (s2 : PState),
    statementF T fuel depth s = some (r, s2) → s.idx ≤ s2.idx
  | 0, depth, s, r, s2, h => by simp [statementF] at h
  | fuel+1, depth, s, r, s2, h => by
    simp only [statementF] at h
    split at h
    · simp only [Option.some.injEq, Prod.mk.injEq] at h
      obtain ⟨-, rfl⟩ := h
      omega
    · rename_i tok heqp
      split_ifs at h with h1 h2 h3 h4 h5
      · exact ifStmtF_mono T fuel depth s r s2 h
      · exact repeatStmtF_mono T fuel depth s r s2 h
      · exact assignStmtF_mono T fuel depth s r s2 h
      · simp only [Option.some.injEq, Prod.mk.injEq] at h
        obtain ⟨-, rfl⟩ := h
        exact readStmtF_idx_le T depth s
      · exact writeStmtF_mono T fuel depth s r s2 h
      · simp only [Option.some.injEq, Prod.mk.injEq] at h
        obtain ⟨-, rfl⟩ := h
        have m0 := pmatch_idx_le T tok.2
          { s with errors := s.errors ++
              ["Syntax Error: Unexpected token " ++ tok.1 ++ " at start of statement."] }
        simp only [PState_mk_idx] at m0 ⊢
        omega
termination_by structural fuel => fuel

theorem stmtSequenceF_mono (T : List Token) : ∀ (fuel depth : Nat) (s : PState)
    (r : Option ASTNode) (s2 : PState),
    stmtSequenceF T fuel depth s = some (r, s2) → s.idx ≤ s2.idx
  | 0, depth, s, r, s2, h => by simp [stmtSequenceF] at h
  | fuel+1, depth, s, r, s2, h => by
    simp only [stmtSequenceF] at h
    split at h
    · exact absurd h (by simp)
    · rename_i p first s1 heq1
      split at h
      · exact absurd h (by simp)
      · rename_i q rest s3 heq2
        simp only [Option.some.injEq, Prod.mk.injEq] at h
        obtain ⟨-, rfl⟩ := h
        have m1 := statementF_mono T fuel depth s first s1 heq1
        have m2 := stmtSeqLoopF_mono T fuel depth s1 rest s3 heq2
        omega
termination_by structural fuel => fuel

theorem stmtSeqLoopF_mono (T : List Token) : ∀ (fuel depth : Nat) (s : PState)
    (l : List ASTNode) (s2 : PState),
    stmtSeqLoopF T fuel depth s = some (l, s2) → s.idx ≤ s2.idx
  | 0, depth, s, l, s2, h => by simp [stmtSeqLoopF] at h
  | fuel+1, depth, s, l, s2, h => by
    simp only [stmtSeqLoopF] at h
    split at h
    · rename_i tok heqp
      split_ifs at h with h1
      · split at h
        · exact absurd h (by simp)
        · rename_i p next s3 heq1
          split at h
          · exact absurd h (by simp)
          · rename_i q rest s4 heq2
            simp only [Option.some.injEq, Prod.mk.injEq] at h
            obtain ⟨-, rfl⟩ := h
            have m0 := pmatch_idx_le T "SEMICOLON" s
            have m1 := statementF_mono T fuel depth _ next s3 heq1
            have m2 := stmtSeqLoopF_mono T fuel depth s3 rest s4 heq2
            omega
      · simp only [Option.some.injEq, Prod.mk.injEq] at h
        obtain ⟨-, rfl⟩ := h
        omega
    · simp only [Option.some.injEq, Prod.mk.injEq] at h
      obtain ⟨-, rfl⟩ := h
      omega
termination_by structural fuel => fuel

theorem ifStmtF_mono (T : List Token) : ∀ (fuel depth : Nat) (s : PState)
    (r : Option ASTNode) (s2 : PState),
    ifStmtF T fuel depth s = some (r, s2) → s.idx ≤ s2.idx
  | 0, depth, s, r, s2, h => by simp [ifStmtF] at h
  | fuel+1, depth, s, r, s2, h => by
    simp only [ifStmtF, newNode] at h
    split at h
    · exact absurd h (by simp)
    · rename_i p expN s3 heq1
      split at h
      · exact absurd h (by simp)
      · rename_i q thenN s5 heq2
        have m0 := pmatch_idx_le T "IF" s
        have m1 := expF_mono T fuel (depth+1) _ expN s3 heq1
        have m2 := pmatch_idx_le T "THEN" s3
        have m3 := stmtSequenceF_mono T fuel (depth+1) _ thenN s5 heq2
        simp only [PState_mk_idx] at m1 m3
        split at h
        · rename_i tok heqp
          split at h
          · split at h
            · exact absurd h (by simp)
            · rename_i q2 elseN s7 heq3
              simp only [Option.some.injEq, Prod.mk.injEq] at h
              obtain ⟨-, rfl⟩ := h
              have m4 := pmatch_idx_le T "ELSE" s5
              have m5 := stmtSequenceF_mono T fuel (depth+1) _ elseN s7 heq3
              have m6 := pmatch_idx_le T "END" s7
              omega
          · simp only [Option.some.injEq, Prod.mk.injEq] at h
            obtain ⟨-, rfl⟩ := h
            have m4 := pmatch_idx_le T "END" s5
            omega
        · simp only [Option.some.injEq, Prod.mk.injEq] at h
          obtain ⟨-, rfl⟩ := h
          have m4 := pmatch_idx_le T "END" s5
          omega
termination_by structural fuel => fuel

theorem repeatStmtF_mono (T : List Token) : ∀ (fuel depth : Nat) (s : PState)
    (r : Option ASTNode) (s2 : PState),
    repeatStmtF T fuel depth s = some (r, s2) → s.idx ≤ s2.idx
  | 0, depth, s, r, s2, h => by simp [repeatStmtF] at h
  | fuel+1, depth, s, r, s2, h => by
    simp only [repeatStmtF, newNode] at h
    split at h
    · exact absurd h (by simp)
    · rename_i p body s3 heq1
      split at h
      · exact absurd h (by simp)
      · rename_i q test s5 heq2
        simp only [Option.some.injEq, Prod.mk.injEq] at h
        obtain ⟨-, rfl⟩ := h
        have m0 := pmatch_idx_le T "REPEAT" s
        have m1 := stmtSequenceF_mono T fuel (depth+1) _ body s3 heq1
        have m2 := pmatch_idx_le T "UNTIL" s3
        have m3 := expF_mono T fuel (depth+1) _ test s5 heq2
        simp only [PState_mk_idx] at m1 m3
        omega
termination_by structural fuel => fuel

theorem assignStmtF_mono (T : List Token) : ∀ (fuel depth : Nat) (s : PState)
    (r : Option ASTNode) (s2 : PState),
    assignStmtF T fuel depth s = some (r, s2) → s.idx ≤ s2.idx
  | 0, depth, s, r, s2, h => by simp [assignStmtF] at h
  | fuel+1, depth, s, r, s2, h => by
    simp only [assignStmtF, newNode] at h
    split at h
    · exact absurd h (by simp)
    · rename_i p e s4 heq1
      simp only [Option.some.injEq, Prod.mk.injEq] at h
      obtain ⟨-, rfl⟩ := h
      have m0 := pmatch_idx_le T "IDENTIFIER" s
      have m1 := pmatch_idx_le T "ASSIGN" (pmatch T "IDENTIFIER" s).2
      have m2 := expF_mono T fuel (depth+1) _ e s4 heq1
      simp only [PState_mk_idx] at m2
      omega

theorem writeStmtF_mono (T : List Token) : ∀ (fuel depth : Nat) (s : PState)
    (r : Option ASTNode) (s2 : PState),
    writeStmtF T fuel depth s = some (r, s2) → s.idx ≤ s2.idx
  | 0, depth, s, r, s2, h => by simp [writeStmtF] at h
  | fuel+1, depth, s, r, s2, h => by
    simp only [writeStmtF, newNode] at h
    split at h
    · exact absurd h (by simp)
    · rename_i p e s3 heq1
      simp only [Option.some.injEq, Prod.mk.injEq] at h
      obtain ⟨-, rfl⟩ := h
      have m0 := pmatch_idx_le T "WRITE" s
      have m1 := expF_mono T fuel (depth+1) _ e s3 heq1
      simp only [PState_mk_idx] at m1
      omega

theorem expF_mono (T : List Token) : ∀ (fuel depth : Nat) (s : PState)
    (r : Option ASTNode) (s2 : PState),
    expF T fuel depth s = some (r, s2) → s.idx ≤ s2.idx
  | 0, depth, s, r, s2, h => by simp [expF] at h
  | fuel+1, depth, s, r, s2, h => by
    simp only [expF, newNode] at h
    split at h
    · exact absurd h (by simp)
    · rename_i p lhs s1 heq1
      have m1 := simpleExpF_mono T fuel depth s lhs s1 heq1
      split at h
      · rename_i tok heqp
        split_ifs at h with hc
        · split at h
          · exact absurd h (by simp)
          · rename_i q rhs s4 heq2
            simp only [Option.some.injEq, Prod.mk.injEq] at h
            obtain ⟨-, rfl⟩ := h
            have m2 := pmatch_idx_le T tok.2 s1
            have m3 := simpleExpF_mono T fuel (depth+1) _ rhs s4 heq2
            simp only [PState_mk_idx] at m3
            omega
        · simp only [Option.some.injEq, Prod.mk.injEq] at h
          obtain ⟨-, rfl⟩ := h
          omega
      · simp only [Option.some.injEq, Prod.mk.injEq] at h
        obtain ⟨-, rfl⟩ := h
        omega
termination_by structural fuel => fuel

theorem simpleExpF_mono (T : List Token) : ∀ (fuel depth : Nat) (s : PState)
    (r : Option ASTNode) (s2 : PState),
    simpleExpF T fuel depth s = some (r, s2) → s.idx ≤ s2.idx
  | 0, depth, s, r, s2, h => by simp [simpleExpF] at h
  | fuel+1, depth, s, r, s2, h => by
    simp only [simpleExpF] at h
    split at h
    · exact absurd h (by simp)
    · rename_i p lhs s1 heq1
      have m1 := termF_mono T fuel depth s lhs s1 heq1
      have m2 := simpleExpLoopF_mono T fuel depth lhs s1 r s2 h
      omega
termination_by structural fuel => fuel

theorem simpleExpLoopF_mono (T : List Token) : ∀ (fuel depth : Nat)
    (lhs : Option ASTNode) (s : PState) (r : Option ASTNode) (s2 : PState),
    simpleExpLoopF T fuel depth lhs s = some (r, s2) → s.idx ≤ s2.idx
  | 0, depth, lhs, s, r, s2, h => by simp [simpleExpLoopF] at h
  | fuel+1, depth, lhs, s, r, s2, h => by
    simp only [simpleExpLoopF, newNode] at h
    split at h
    · rename_i tok heqp
      split_ifs at h with hc
      · split at h
        · exact absurd h (by simp)
        · rename_i p rhs s3 heq1
          have m0 := pmatch_idx_le T tok.2 s
          have m1 := termF_mono T fuel (depth+1) _ rhs s3 heq1
          have m2 := simpleExpLoopF_mono T fuel depth _ s3 r s2 h
          simp only [PState_mk_idx] at m1
          omega
      · simp only [Option.some.injEq, Prod.mk.injEq] at h
        obtain ⟨-, rfl⟩ := h
        omega
    · simp only [Option.some.injEq, Prod.mk.injEq] at h
      obtain ⟨-, rfl⟩ := h
      omega
termination_by structural fuel => fuel

theorem termF_mono (T : List Token) : ∀ (fuel depth : Nat) (s : PState)
    (r : Option ASTNode) (s2 : PState),
    termF T fuel depth s = some (r, s2) → s.idx ≤ s2.idx
  | 0, depth, s, r, s2, h => by simp [termF] at h
  | fuel+1, depth, s, r, s2, h => by
    simp only [termF] at h
    split at h
    · exact absurd h (by simp)
    · rename_i p lhs s1 heq1
      have m1 := factorF_mono T fuel depth s lhs s1 heq1
      have m2 := termLoopF_mono T fuel depth lhs s1 r s2 h
      omega
termination_by structural fuel => fuel

theorem termLoopF_mono (T : List Token) : ∀ (fuel depth : Nat)
    (lhs : Option ASTNode) (s : PState) (r : Option ASTNode) (s2 : PState),
    termLoopF T fuel depth lhs s = some (r, s2) → s.idx ≤ s2.idx
  | 0, depth, lhs, s, r, s2, h => by simp [termLoopF] at h
  | fuel+1, depth, lhs, s, r, s2, h => by
    simp only [termLoopF, newNode] at h
    split at h
    · rename_i tok heqp
      split_ifs at h with hc
      · split at h
        · exact absurd h (by simp)
        · rename_i p rhs s3 heq1
          have m0 := pmatch_idx_le T tok.2 s
          have m1 := factorF_mono T fuel (depth+1) _ rhs s3 heq1
          have m2 := termLoopF_mono T fuel depth _ s3 r s2 h
          simp only [PState_mk_idx] at m1
          omega
      · simp only [Option.some.injEq, Prod.mk.injEq] at h
        obtain ⟨-, rfl⟩ := h
        omega
    · simp only [Option.some.injEq, Prod.mk.injEq] at h
      obtain ⟨-, rfl⟩ := h
      omega
termination_by structural fuel => fuel

theorem factorF_mono (T : List Token) : ∀ (fuel depth : Nat) (s : PState)
    (r : Option ASTNode) (s2 : PState),
    factorF T fuel depth s = some (r, s2) → s.idx ≤ s2.idx
  | 0, depth, s, r, s2, h => by simp [factorF] at h
  | fuel+1, depth, s, r, s2, h => by
    simp only [factorF, newNode] at h
    split at h
    · simp only [Option.some.injEq, Prod.mk.injEq] at h
      obtain ⟨-, rfl⟩ := h
      omega
    · rename_i tok heqp
      split_ifs at h with h1 h2 h3
      · split at h
        · exact absurd h (by simp)
        · rename_i p node s3 heq1
          simp only [Option.some.injEq, Prod.mk.injEq] at h
          obtain ⟨-, rfl⟩ := h
          have m0 := pmatch_idx_le T "OPENBRACKET" s
          have m1 := expF_mono T fuel depth _ node s3 heq1
          have m2 := pmatch_idx_le T "CLOSEDBRACKET" s3
          omega
      · simp only [Option.some.injEq, Prod.mk.injEq] at h
        obtain ⟨-, rfl⟩ := h
        have m0 := pmatch_idx_le T "NUMBER" s
        simp only [PState_mk_idx]
        omega
      · simp only [Option.some.injEq, Prod.mk.injEq] at h
        obtain ⟨-, rfl⟩ := h
        have m0 := pmatch_idx_le T "IDENTIFIER" s
        simp only [PState_mk_idx]
        omega
      · simp only [Option.some.injEq, Prod.mk.injEq] at h
        obtain ⟨-, rfl⟩ := h
        simp only [PState_mk_idx]
        omega
termination_by structural fuel => fuel

end


/-! ### End-of-input behaviour: with a small constant fuel, every grammar
function returns, leaving the cursor in place. -/

theorem peek_none (T : List Token) {s : PState} (h : T.length ≤ s.idx) :
    T[s.idx]? = none := List.getElem?_eq_none h

theorem statementF_eof (T : List Token) : ∀ (fuel depth : Nat) (s : PState),
    T.length ≤ s.idx → 1 ≤ fuel → statementF T fuel depth s = some (none, s)
  | 0, _, _, _, hf => absurd hf (by omega)
  | fuel+1, depth, s, h, _ => by
    simp [statementF, peek_none T h]

theorem stmtSeqLoopF_eof (T : List Token) : ∀ (fuel depth : Nat) (s : PState),
    T.length ≤ s.idx → 1 ≤ fuel → stmtSeqLoopF T fuel depth s = some ([], s)
  | 0, _, _, _, hf => absurd hf (by omega)
  | fuel+1, depth, s, h, _ => by
    simp [stmtSeqLoopF, peek_none T h]

theorem stmtSequenceF_eof (T : List Token) : ∀ (fuel depth : Nat) (s : PState),
    T.length ≤ s.idx → 2 ≤ fuel → stmtSequenceF T fuel depth s = some (none, s)
  | 0, _, _, _, hf => absurd hf (by omega)
  | fuel+1, depth, s, h, hf => by
    simp only [stmtSequenceF, statementF_eof T fuel depth s h (by omega),
      stmtSeqLoopF_eof T fuel depth s h (by omega)]
    simp

theorem factorF_eof (T : List Token) : ∀ (fuel depth : Nat) (s : PState),
    T.length ≤ s.idx → 1 ≤ fuel → factorF T fuel depth s = some (none, s)
  | 0, _, _, _, hf => absurd hf (by omega)
  | fuel+1, depth, s, h, _ => by
    simp [factorF, peek_none T h]

theorem termLoopF_eof (T : List Token) : ∀ (fuel depth : Nat) (lhs : Option ASTNode)
    (s : PState), T.length ≤ s.idx → 1 ≤ fuel →
    termLoopF T fuel depth lhs s = some (lhs, s)
  | 0, _, _, _, _, hf => absurd hf (by omega)
  | fuel+1, depth, lhs, s, h, _ => by
    simp [termLoopF, peek_none T h]

theorem termF_eof (T : List Token) : ∀ (fuel depth : Nat) (s : PState),
    T.length ≤ s.idx → 2 ≤ fuel → termF T fuel depth s = some (none, s)
  | 0, _, _, _, hf => absurd hf (by omega)
  | fuel+1, depth, s, h, hf => by
    simp only [termF, factorF_eof T fuel depth s h (by omega),
      termLoopF_eof T fuel depth none s h (by omega)]

theorem simpleExpLoopF_eof (T : List Token) : ∀ (fuel depth : Nat)
    (lhs : Option ASTNode) (s : PState), T.length ≤ s.idx → 1 ≤ fuel →
    simpleExpLoopF T fuel depth lhs s = some (lhs, s)
  | 0, _, _, _, _, hf => absurd hf (by omega)
  | fuel+1, depth, lhs, s, h, _ => by
    simp [simpleExpLoopF, peek_none T h]

theorem simpleExpF_eof (T : List Token) : ∀ (fuel depth : Nat) (s : PState),
    T.length ≤ s.idx → 3 ≤ fuel → simpleExpF T fuel depth s = some (none, s)
  | 0, _, _, _, hf => absurd hf (by omega)
  | fuel+1, depth, s, h, hf => by
    simp only [simpleExpF, termF_eof T fuel depth s h (by omega),
      simpleExpLoopF_eof T fuel depth none s h (by omega)]

theorem expF_eof (T : List Token) : ∀ (fuel depth : Nat) (s : PState),
    T.length ≤ s.idx → 4 ≤ fuel → expF T fuel depth s = some (none, s)
  | 0, _, _, _, hf => absurd hf (by omega)
  | fuel+1, depth, s, h, hf => by
    simp only [expF, simpleExpF_eof T fuel depth s h (by omega)]
    simp [peek_none T h]

theorem ifStmtF_eof (T : List Token) : ∀ (fuel depth : Nat) (s : PState),
    T.length ≤ s.idx → 6 ≤ fuel →
    ifStmtF T fuel depth s =
      some (some (ASTNode.mk s.nextId "if" none [] none "rect" depth),
        ⟨s.idx, s.errors ++ [errMsg "IF" "EOF" s.idx] ++ [errMsg "THEN" "EOF" s.idx]
          ++ [errMsg "END" "EOF" s.idx], s.nextId + 1⟩)
  | 0, _, _, _, hf => absurd hf (by omega)
  | fuel+1, depth, s, h, hf => by
    have hp := peek_none T h
    simp only [ifStmtF, newNode, pmatch_eof T hp, PState_mk_idx]
    simp only [expF_eof T fuel (depth+1)
      ⟨s.idx, s.errors ++ [errMsg "IF" "EOF" s.idx], s.nextId + 1⟩
      (by simpa using h) (by omega)]
    simp only [pmatch_eof T (by simpa using hp : T[(⟨s.idx,
      s.errors ++ [errMsg "IF" "EOF" s.idx], s.nextId + 1⟩ : PState).idx]? = none),
      PState_mk_idx]
    simp only [stmtSequenceF_eof T fuel (depth+1)
      ⟨s.idx, s.errors ++ [errMsg "IF" "EOF" s.idx] ++ [errMsg "THEN" "EOF" s.idx],
        s.nextId + 1⟩ (by simpa using h) (by omega)]
    simp only [peek_none T (by simpa using h : T.length ≤ (⟨s.idx,
      s.errors ++ [errMsg "IF" "EOF" s.idx] ++ [errMsg "THEN" "EOF" s.idx],
      s.nextId + 1⟩ : PState).idx)]
    simp only [pmatch_eof T (by simpa using hp : T[(⟨s.idx,
      s.errors ++ [errMsg "IF" "EOF" s.idx] ++ [errMsg "THEN" "EOF" s.idx],
      s.nextId + 1⟩ : PState).idx]? = none), PState_mk_idx]
    simp [ASTNode.addChild]

theorem repeatStmtF_eof (T : List Token) : ∀ (fuel depth : Nat) (s : PState),
    T.length ≤ s.idx → 6 ≤ fuel →
    repeatStmtF T fuel depth s =
      some (some (ASTNode.mk s.nextId "repeat" none [] none "rect" depth),
        ⟨s.idx, s.errors ++ [errMsg "REPEAT" "EOF" s.idx]
          ++ [errMsg "UNTIL" "EOF" s.idx], s.nextId + 1⟩)
  | 0, _, _, _, hf => absurd hf (by omega)
  | fuel+1, depth, s, h, hf => by
    have hp := peek_none T h
    simp only [repeatStmtF, newNode, pmatch_eof T hp, PState_mk_idx]
    simp only [stmtSequenceF_eof T fuel (depth+1)
      ⟨s.idx, s.errors ++ [errMsg "REPEAT" "EOF" s.idx], s.nextId + 1⟩
      (by simpa using h) (by omega)]
    simp only [pmatch_eof T (by simpa using hp : T[(⟨s.idx,
      s.errors ++ [errMsg "REPEAT" "EOF" s.idx], s.nextId + 1⟩ : PState).idx]? = none),
      PState_mk_idx]
    simp only [expF_eof T fuel (depth+1)
      ⟨s.idx, s.errors ++ [errMsg "REPEAT" "EOF" s.idx]
        ++ [errMsg "UNTIL" "EOF" s.idx], s.nextId + 1⟩ (by simpa using h) (by omega)]
    simp [ASTNode.addChild]

theorem assignStmtF_eof (T : List Token) : ∀ (fuel depth : Nat) (s : PState),
    T.length ≤ s.idx → 5 ≤ fuel →
    assignStmtF T fuel depth s =
      some (some (ASTNode.mk s.nextId "assign" (some "(None)") [] none "rect" depth),
        ⟨s.idx, s.errors ++ [errMsg "IDENTIFIER" "EOF" s.idx]
          ++ [errMsg "ASSIGN" "EOF" s.idx], s.nextId + 1⟩)
  | 0, _, _, _, hf => absurd hf (by omega)
  | fuel+1, depth, s, h, hf => by
    have hp := peek_none T h
    simp only [assignStmtF, newNode, pmatch_eof T hp, PState_mk_idx]
    simp only [pmatch_eof T (by simpa using hp : T[(⟨s.idx,
      s.errors ++ [errMsg "IDENTIFIER" "EOF" s.idx], s.nextId⟩ : PState).idx]? = none),
      PState_mk_idx]
    simp only [expF_eof T fuel (depth+1)
      ⟨s.idx, s.errors ++ [errMsg "IDENTIFIER" "EOF" s.idx]
        ++ [errMsg "ASSIGN" "EOF" s.idx], s.nextId + 1⟩ (by simpa using h) (by omega)]
    simp [ASTNode.addChild, paren]

theorem writeStmtF_eof (T : List Token) : ∀ (fuel depth : Nat) (s : PState),
    T.length ≤ s.idx → 5 ≤ fuel →
    writeStmtF T fuel depth s =
      some (some (ASTNode.mk s.nextId "write" none [] none "rect" depth),
        ⟨s.idx, s.errors ++ [errMsg "WRITE" "EOF" s.idx], s.nextId + 1⟩)
  | 0, _, _, _, hf => absurd hf (by omega)
  | fuel+1, depth, s, h, hf => by
    have hp := peek_none T h
    simp only [writeStmtF, newNode, pmatch_eof T hp, PState_mk_idx]
    simp only [expF_eof T fuel (depth+1)
      ⟨s.idx, s.errors ++ [errMsg "WRITE" "EOF" s.idx], s.nextId + 1⟩
      (by simpa using h) (by omega)]
    simp [ASTNode.addChild]


/-! ### Fuel budgets: `rank + 20 * (remaining tokens)` steps always
suffice, where the rank orders the grammar functions along same-index call
chains (factor/termLoop 11, term/simpleExpLoop 12, simpleExp 13, exp 14,
keyword statements 15, statement/stmtSeqLoop 16, stmtSequence 17). -/

theorem lt_of_peek_some (T : List Token) {s : PState} {tok : Token}
    (hp : T[s.idx]? = some tok) : s.idx < T.length := by
  by_contra hx
  rw [peek_none T (by omega)] at hp
  exact Option.noConfusion hp

mutual

theorem factorF_fuel (T : List Token) : ∀ (fuel depth : Nat) (s : PState),
    11 + 20 * (T.length - s.idx) ≤ fuel → (factorF T fuel depth s).isSome
  | 0, _, _, hfuel => absurd hfuel (by omega)
  | g+1, depth, s, hfuel => by
    by_cases hE : T.length ≤ s.idx
    · simp [factorF_eof T (g+1) depth s hE (by omega)]
    · push_neg at hE
      have hpeek : T[s.idx]? = some (T[s.idx]) := List.getElem?_eq_getElem hE
      simp only [factorF, hpeek]
      split_ifs with h1 h2 h3
      · simp only [pmatch_success T hpeek h1]
        have hex := expF_fuel T g depth ⟨s.idx + 1, s.errors, s.nextId⟩
          (by simp only [PState_mk_idx]; omega)
        obtain ⟨⟨node, s3⟩, he⟩ := Option.isSome_iff_exists.mp hex
        simp [he]
      · simp
      · simp
      · simp
termination_by structural fuel => fuel

theorem termLoopF_fuel (T : List Token) : ∀ (fuel depth : Nat)
    (lhs : Option ASTNode) (s : PState),
    11 + 20 * (T.length - s.idx) ≤ fuel → (termLoopF T fuel depth lhs s).isSome
  | 0, _, _, _, hfuel => absurd hfuel (by omega)
  | g+1, depth, lhs, s, hfuel => by
    by_cases hE : T.length ≤ s.idx
    · simp [termLoopF_eof T (g+1) depth lhs s hE (by omega)]
    · push_neg at hE
      have hpeek : T[s.idx]? = some (T[s.idx]) := List.getElem?_eq_getElem hE
      simp only [termLoopF, hpeek]
      split_ifs with hc
      · simp only [pmatch_success T hpeek rfl, newNode]
        have hfa := factorF_fuel T g (depth+1) ⟨s.idx + 1, s.errors, s.nextId + 1⟩
          (by simp only [PState_mk_idx]; omega)
        obtain ⟨⟨rhs, s3⟩, hf⟩ := Option.isSome_iff_exists.mp hfa
        simp only [hf]
        have m1 := factorF_mono T g (depth+1) _ rhs s3 hf
        simp only [PState_mk_idx] at m1
        exact termLoopF_fuel T g depth _ s3 (by omega)
      · simp
termination_by structural fuel => fuel

theorem termF_fuel (T : List Token) : ∀ (fuel depth : Nat) (s : PState),
    12 + 20 * (T.length - s.idx) ≤ fuel → (termF T fuel depth s).isSome
  | 0, _, _, hfuel => absurd hfuel (by omega)
  | g+1, depth, s, hfuel => by
    simp only [termF]
    have hfa := factorF_fuel T g depth s (by omega)
    obtain ⟨⟨lhs, s1⟩, hf⟩ := Option.isSome_iff_exists.mp hfa
    simp only [hf]
    have m1 := factorF_mono T g depth s lhs s1 hf
    exact termLoopF_fuel T g depth lhs s1 (by omega)
termination_by structural fuel => fuel

theorem simpleExpLoopF_fuel (T : List Token) : ∀ (fuel depth : Nat)
    (lhs : Option ASTNode) (s : PState),
    12 + 20 * (T.length - s.idx) ≤ fuel → (simpleExpLoopF T fuel depth lhs s).isSome
  | 0, _, _, _, hfuel => absurd hfuel (by omega)
  | g+1, depth, lhs, s, hfuel => by
    by_cases hE : T.length ≤ s.idx
    · simp [simpleExpLoopF_eof T (g+1) depth lhs s hE (by omega)]
    · push_neg at hE
      have hpeek : T[s.idx]? = some (T[s.idx]) := List.getElem?_eq_getElem hE
      simp only [simpleExpLoopF, hpeek]
      split_ifs with hc
      · simp only [pmatch_success T hpeek rfl, newNode]
        have hte := termF_fuel T g (depth+1) ⟨s.idx + 1, s.errors, s.nextId + 1⟩
          (by simp only [PState_mk_idx]; omega)
        obtain ⟨⟨rhs, s3⟩, ht⟩ := Option.isSome_iff_exists.mp hte
        simp only [ht]
        have m1 := termF_mono T g (depth+1) _ rhs s3 ht
        simp only [PState_mk_idx] at m1
        exact simpleExpLoopF_fuel T g depth _ s3 (by omega)
      · simp
termination_by structural fuel => fuel

theorem simpleExpF_fuel (T : List Token) : ∀ (fuel depth : Nat) (s : PState),
    13 + 20 * (T.length - s.idx) ≤ fuel → (simpleExpF T fuel depth s).isSome
  | 0, _, _, hfuel => absurd hfuel (by omega)
  | g+1, depth, s, hfuel => by
    simp only [simpleExpF]
    have hte := termF_fuel T g depth s (by omega)
    obtain ⟨⟨lhs, s1⟩, ht⟩ := Option.isSome_iff_exists.mp hte
    simp only [ht]
    have m1 := termF_mono T g depth s lhs s1 ht
    exact simpleExpLoopF_fuel T g depth lhs s1 (by omega)
termination_by structural fuel => fuel

theorem expF_fuel (T : List Token) : ∀ (fuel depth : Nat) (s : PState),
    14 + 20 * (T.length - s.idx) ≤ fuel → (expF T fuel depth s).isSome
  | 0, _, _, hfuel => absurd hfuel (by omega)
  | g+1, depth, s, hfuel => by
    simp only [expF]
    have hse := simpleExpF_fuel T g depth s (by omega)
    obtain ⟨⟨lhs, s1⟩, hs1⟩ := Option.isSome_iff_exists.mp hse
    simp only [hs1]
    have m1 := simpleExpF_mono T g depth s lhs s1 hs1
    split
    · rename_i tok hp1
      have hlt := lt_of_peek_some T hp1
      split_ifs with hc
      · simp only [pmatch_success T hp1 rfl, newNode]
        have hse2 := simpleExpF_fuel T g (depth+1)
          ⟨s1.idx + 1, s1.errors, s1.nextId + 1⟩ (by simp only [PState_mk_idx]; omega)
        obtain ⟨⟨rhs, s4⟩, hs2⟩ := Option.isSome_iff_exists.mp hse2
        simp [hs2]
      · simp
    · simp
termination_by structural fuel => fuel

theorem ifStmtF_fuel (T : List Token) : ∀ (fuel depth : Nat) (s : PState),
    (∀ tok : Token, T[s.idx]? = some tok → tok.2 = "IF") →
    15 + 20 * (T.length - s.idx) ≤ fuel → (ifStmtF T fuel depth s).isSome
  | 0, _, _, _, hfuel => absurd hfuel (by omega)
  | g+1, depth, s, hk, hfuel => by
    by_cases hE : T.length ≤ s.idx
    · simp [ifStmtF_eof T (g+1) depth s hE (by omega)]
    · push_neg at hE
      have hpeek : T[s.idx]? = some (T[s.idx]) := List.getElem?_eq_getElem hE
      have hkk := hk _ hpeek
      simp only [ifStmtF, newNode, pmatch_success T hpeek hkk]
      have hex := expF_fuel T g (depth+1) ⟨s.idx + 1, s.errors, s.nextId + 1⟩
        (by simp only [PState_mk_idx]; omega)
      obtain ⟨⟨expN, s3⟩, he⟩ := Option.isSome_iff_exists.mp hex
      simp only [he]
      have m1 := expF_mono T g (depth+1) _ expN s3 he
      simp only [PState_mk_idx] at m1
      have m2 := pmatch_idx_le T "THEN" s3
      have hss := stmtSequenceF_fuel T g (depth+1) (pmatch T "THEN" s3).2 (by omega)
      obtain ⟨⟨thenN, s5⟩, ht⟩ := Option.isSome_iff_exists.mp hss
      simp only [ht]
      have m3 := stmtSequenceF_mono T g (depth+1) _ thenN s5 ht
      split
      · rename_i tok5 hp5
        split_ifs with hc
        · have m4 := pmatch_idx_le T "ELSE" s5
          have hss2 := stmtSequenceF_fuel T g (depth+1) (pmatch T "ELSE" s5).2 (by omega)
          obtain ⟨⟨elseN, s7⟩, ht2⟩ := Option.isSome_iff_exists.mp hss2
          simp [ht2]
        · simp
      · simp
termination_by structural fuel => fuel

theorem repeatStmtF_fuel (T : List Token) : ∀ (fuel depth : Nat) (s : PState),
    (∀ tok : Token, T[s.idx]? = some tok → tok.2 = "REPEAT") →
    15 + 20 * (T.length - s.idx) ≤ fuel → (repeatStmtF T fuel depth s).isSome
  | 0, _, _, _, hfuel => absurd hfuel (by omega)
  | g+1, depth, s, hk, hfuel => by
    by_cases hE : T.length ≤ s.idx
    · simp [repeatStmtF_eof T (g+1) depth s hE (by omega)]
    · push_neg at hE
      have hpeek : T[s.idx]? = some (T[s.idx]) := List.getElem?_eq_getElem hE
      have hkk := hk _ hpeek
      simp only [repeatStmtF, newNode, pmatch_success T hpeek hkk]
      have hss := stmtSequenceF_fuel T g (depth+1) ⟨s.idx + 1, s.errors, s.nextId + 1⟩
        (by simp only [PState_mk_idx]; omega)
      obtain ⟨⟨body, s3⟩, hb⟩ := Option.isSome_iff_exists.mp hss
      simp only [hb]
      have m1 := stmtSequenceF_mono T g (depth+1) _ body s3 hb
      simp only [PState_mk_idx] at m1
      have m2 := pmatch_idx_le T "UNTIL" s3
      have hex := expF_fuel T g (depth+1) (pmatch T "UNTIL" s3).2 (by omega)
      obtain ⟨⟨test, s5⟩, he⟩ := Option.isSome_iff_exists.mp hex
      simp [he]
termination_by structural fuel => fuel

theorem assignStmtF_fuel (T : List Token) : ∀ (fuel depth : Nat) (s : PState),
    (∀ tok : Token, T[s.idx]? = some tok → tok.2 = "IDENTIFIER") →
    15 + 20 * (T.length - s.idx) ≤ fuel → (assignStmtF T fuel depth s).isSome
  | 0, _, _, _, hfuel => absurd hfuel (by omega)
  | g+1, depth, s, hk, hfuel => by
    by_cases hE : T.length ≤ s.idx
    · simp [assignStmtF_eof T (g+1) depth s hE (by omega)]
    · push_neg at hE
      have hpeek : T[s.idx]? = some (T[s.idx]) := List.getElem?_eq_getElem hE
      have hkk := hk _ hpeek
      simp only [assignStmtF, newNode, pmatch_success T hpeek hkk]
      have m1 := pmatch_idx_le T "ASSIGN" ⟨s.idx + 1, s.errors, s.nextId⟩
      simp only [PState_mk_idx] at m1
      have hex := expF_fuel T g (depth+1)
        ⟨(pmatch T "ASSIGN" ⟨s.idx + 1, s.errors, s.nextId⟩).2.idx,
         (pmatch T "ASSIGN" ⟨s.idx + 1, s.errors, s.nextId⟩).2.errors,
         (pmatch T "ASSIGN" ⟨s.idx + 1, s.errors, s.nextId⟩).2.nextId + 1⟩
        (by simp only [PState_mk_idx]; omega)
      obtain ⟨⟨e, s4⟩, he⟩ := Option.isSome_iff_exists.mp hex
      simp [he]

theorem writeStmtF_fuel (T : List Token) : ∀ (fuel depth : Nat) (s : PState),
    (∀ tok : Token, T[s.idx]? = some tok → tok.2 = "WRITE") →
    15 + 20 * (T.length - s.idx) ≤ fuel → (writeStmtF T fuel depth s).isSome
  | 0, _, _, _, hfuel => absurd hfuel (by omega)
  | g+1, depth, s, hk, hfuel => by
    by_cases hE : T.length ≤ s.idx
    · simp [writeStmtF_eof T (g+1) depth s hE (by omega)]
    · push_neg at hE
      have hpeek : T[s.idx]? = some (T[s.idx]) := List.getElem?_eq_getElem hE
      have hkk := hk _ hpeek
      simp only [writeStmtF, newNode, pmatch_success T hpeek hkk]
      have hex := expF_fuel T g (depth+1) ⟨s.idx + 1, s.errors, s.nextId + 1⟩
        (by simp only [PState_mk_idx]; omega)
      obtain ⟨⟨e, s3⟩, he⟩ := Option.isSome_iff_exists.mp hex
      simp [he]

theorem statementF_fuel (T : List Token) : ∀ (fuel depth : Nat) (s : PState),
    16 + 20 * (T.length - s.idx) ≤ fuel → (statementF T fuel depth s).isSome
  | 0, _, _, hfuel => absurd hfuel (by omega)
  | g+1, depth, s, hfuel => by
    simp only [statementF]
    split
    · simp
    · rename_i tok hp
      split_ifs with h1 h2 h3 h4 h5
      · exact ifStmtF_fuel T g depth s
          (fun tok2 hp2 => by rw [hp] at hp2; cases hp2; exact h1) (by omega)
      · exact repeatStmtF_fuel T g depth s
          (fun tok2 hp2 => by rw [hp] at hp2; cases hp2; exact h2) (by omega)
      · exact assignStmtF_fuel T g depth s
          (fun tok2 hp2 => by rw [hp] at hp2; cases hp2; exact h3) (by omega)
      · simp
      · exact writeStmtF_fuel T g depth s
          (fun tok2 hp2 => by rw [hp] at hp2; cases hp2; exact h5) (by omega)
      · simp
termination_by structural fuel => fuel

theorem stmtSeqLoopF_fuel (T : List Token) : ∀ (fuel depth : Nat) (s : PState),
    16 + 20 * (T.length - s.idx) ≤ fuel → (stmtSeqLoopF T fuel depth s).isSome
  | 0, _, _, hfuel => absurd hfuel (by omega)
  | g+1, depth, s, hfuel => by
    by_cases hE : T.length ≤ s.idx
    · simp [stmtSeqLoopF_eof T (g+1) depth s hE (by omega)]
    · push_neg at hE
      have hpeek : T[s.idx]? = some (T[s.idx]) := List.getElem?_eq_getElem hE
      simp only [stmtSeqLoopF, hpeek]
      split_ifs with hc
      · simp only [pmatch_success T hpeek hc]
        have hst := statementF_fuel T g depth ⟨s.idx + 1, s.errors, s.nextId⟩
          (by simp only [PState_mk_idx]; omega)
        obtain ⟨⟨next, s2⟩, hn⟩ := Option.isSome_iff_exists.mp hst
        simp only [hn]
        have m1 := statementF_mono T g depth _ next s2 hn
        simp only [PState_mk_idx] at m1
        have hlp := stmtSeqLoopF_fuel T g depth s2 (by omega)
        obtain ⟨⟨rest, s3⟩, hr⟩ := Option.isSome_iff_exists.mp hlp
        simp [hr]
      · simp
termination_by structural fuel => fuel

theorem stmtSequenceF_fuel (T : List Token) : ∀ (fuel depth : Nat) (s : PState),
    17 + 20 * (T.length - s.idx) ≤ fuel → (stmtSequenceF T fuel depth s).isSome
  | 0, _, _, hfuel => absurd hfuel (by omega)
  | g+1, depth, s, hfuel => by
    simp only [stmtSequenceF]
    have hst := statementF_fuel T g depth s (by omega)
    obtain ⟨⟨first, s1⟩, h1⟩ := Option.isSome_iff_exists.mp hst
    simp only [h1]
    have m1 := statementF_mono T g depth s first s1 h1
    have hlp := stmtSeqLoopF_fuel T g depth s1 (by omega)
    obtain ⟨⟨rest, s2⟩, h2⟩ := Option.isSome_iff_exists.mp hlp
    simp [h2]
termination_by structural fuel => fuel

end

/-- A fuel of `17 + 20 * T.length` suffices for `Parser.parse` on any token
list. -/
theorem parseF_fuel (T : List Token) (fuel : Nat)
    (h : 17 + 20 * T.length ≤ fuel) : (parseF T fuel).isSome := by
  simp only [parseF, programF]
  have hss := stmtSequenceF_fuel T fuel 0 initState
    (by simp only [initState, PState_mk_idx]; omega)
  obtain ⟨⟨root, s1⟩, h1⟩ := Option.isSome_iff_exists.mp hss
  simp [h1]

/-- Claim C3.  `Parser.parse` terminates on every finite token list,
including arbitrary garbage: the default fuel always suffices, and any fuel
of at least `17 + 20 * (number of tokens)` does; moreover both panic-mode
recovery paths advance the cursor by exactly one token: an unexpected
leading token in `statement` and an unexpected token in `factor` are each
reported and consumed. -/
theorem claim3_parser_terminates :
    (∀ T : List Token, (parseTop T).isSome) ∧
    (∀ (T : List Token) (fuel : Nat), 17 + 20 * T.length ≤ fuel →
      (parseF T fuel).isSome) ∧
    (∀ (T : List Token) (fuel depth : Nat) (s : PState) (tok : Token),
      T[s.idx]? = some tok →
      tok.2 ≠ "IF" → tok.2 ≠ "REPEAT" → tok.2 ≠ "IDENTIFIER" →
      tok.2 ≠ "READ" → tok.2 ≠ "WRITE" →
      statementF T (fuel+1) depth s =
        some (none, ⟨s.idx + 1,
          s.errors ++
            ["Syntax Error: Unexpected token " ++ tok.1 ++ " at start of statement."],
          s.nextId⟩)) ∧
    ∀ (T : List Token) (fuel depth : Nat) (s : PState) (tok : Token),
      T[s.idx]? = some tok →
      tok.2 ≠ "OPENBRACKET" → tok.2 ≠ "NUMBER" → tok.2 ≠ "IDENTIFIER" →
      factorF T (fuel+1) depth s =
        some (none, ⟨s.idx + 1,
          s.errors ++
            ["Syntax Error: Unexpected token " ++ tok.1 ++
              " in expression at index " ++ toString s.idx],
          s.nextId⟩) := by
  refine ⟨fun T => parseF_fuel T _ (by omega),
    fun T fuel h => parseF_fuel T fuel h, ?_, ?_⟩
  · intro T fuel depth s tok hp h1 h2 h3 h4 h5
    have hp2 : T[(⟨s.idx,
        s.errors ++
          ["Syntax Error: Unexpected token " ++ tok.1 ++ " at start of statement."],
        s.nextId⟩ : PState).idx]? = some tok := by simpa using hp
    simp [statementF, hp, h1, h2, h3, h4, h5, pmatch_success T hp2 rfl]
  · intro T fuel depth s tok hp h1 h2 h3
    simp [factorF, hp, h1, h2, h3]

/-- Witness for `claim3_parser_terminates` at the garbage token list
consisting of a single stray closing bracket. -/
theorem claim3_witness :
    (parseTop [(")", "CLOSEDBRACKET")]).isSome ∧
    (parseF [(")", "CLOSEDBRACKET")] 100).isSome ∧
    statementF [(")", "CLOSEDBRACKET")] 6 0 initState =
      some (none, ⟨1, ["Syntax Error: Unexpected token ) at start of statement."], 0⟩) ∧
    factorF [(")", "CLOSEDBRACKET")] 6 0 initState =
      some (none, ⟨1, ["Syntax Error: Unexpected token ) in expression at index 0"], 0⟩) :=
  ⟨claim3_parser_terminates.1 [(")", "CLOSEDBRACKET")],
   claim3_parser_terminates.2.1 [(")", "CLOSEDBRACKET")] 100 (by decide),
   claim3_parser_terminates.2.2.1 [(")", "CLOSEDBRACKET")] 5 0 initState
     (")", "CLOSEDBRACKET") (by decide) (by decide) (by decide) (by decide)
     (by decide) (by decide),
   claim3_parser_terminates.2.2.2 [(")", "CLOSEDBRACKET")] 5 0 initState
     (")", "CLOSEDBRACKET") (by decide) (by decide) (by decide) (by decide)⟩

end Tiny
